import Mathlib

/-!
# Verification of the ecency/imagehoster specification against its source

Shallow embedding of the parts of the imagehoster source that the checked
claims are about: the key codec (base58 / multihash / sha2-256 upload keys),
the URL canonicalizer (`constants.ts`), the misc utilities (`utils.ts`:
`base58Enc`, `base58Dec`, `parseProxiedUrl`, `getImageKey`, content
negotiation), the upstream fetcher (`fetch-image.ts`), the proxy request
option parser and the proxy response tail (`proxy.ts`), the fallback image
builder (`fallback.ts`) and the two upload handlers (`upload.ts`).

Buffers are `List Nat` with byte values; JS strings are Lean `String`
(sequences of Unicode scalar values); external platform facilities (the
WHATWG URL parser, the HTTP client, the blockchain RPC, the codec library,
the blob store) are oracle parameters.
-/

namespace Imagehoster


/-! ## UTF-8 (Node `Buffer.from(s, 'utf8')` / `buf.toString('utf8')`)

`utf8Encode` is standard UTF-8 over the scalar values of the string.
The decoder is strict enough to invert the encoder; a byte sequence it
rejects is treated as a decode failure (spec §4.1: non-UTF-8 decode
results are treated as decode failure). -/

/-- UTF-8 encoding of one Unicode scalar value (as a `Nat`). -/
def utf8EncodeChar (n : Nat) : List Nat :=
  if n < 0x80 then [n]
  else if n < 0x800 then [0xC0 + n / 64, 0x80 + n % 64]
  else if n < 0x10000 then [0xE0 + n / 4096, 0x80 + n / 64 % 64, 0x80 + n % 64]
  else [0xF0 + n / 262144, 0x80 + n / 4096 % 64, 0x80 + n / 64 % 64, 0x80 + n % 64]

/-- UTF-8 encoding of a list of characters. -/
def utf8EncodeChars (cs : List Char) : List Nat :=
  (cs.map (fun c => utf8EncodeChar c.toNat)).flatten

/-- UTF-8 encoding of a string: the bytes of `Buffer.from(s, 'utf8')`. -/
def utf8Encode (s : String) : List Nat :=
  utf8EncodeChars s.data

/-- Byte-at-a-time UTF-8 decoding loop. `pending` is how many continuation
bytes are still expected for the current scalar, `acc` the value decoded so
far. Returns the scalar values, or `none` on a malformed sequence. -/
def utf8DecodeLoop : List Nat → Nat → Nat → Option (List Nat)
  | [], 0, _ => some []
  | [], _ + 1, _ => none
  | b :: rest, 0, _ =>
      if b < 0x80 then (utf8DecodeLoop rest 0 0).map (fun l => b :: l)
      else if b < 0xC0 then none
      else if b < 0xE0 then utf8DecodeLoop rest 1 (b - 0xC0)
      else if b < 0xF0 then utf8DecodeLoop rest 2 (b - 0xE0)
      else if b < 0xF8 then utf8DecodeLoop rest 3 (b - 0xF0)
      else none
  | b :: rest, pending + 1, acc =>
      if 0x80 ≤ b ∧ b < 0xC0 then
        match pending with
        | 0 => (utf8DecodeLoop rest 0 0).map (fun l => (acc * 64 + (b - 0x80)) :: l)
        | p + 1 => utf8DecodeLoop rest (p + 1) (acc * 64 + (b - 0x80))
      else none

/-- Turn decoded scalar values back into characters, failing on values that
are not valid Unicode scalars. -/
def charsOfScalars : List Nat → Option (List Char)
  | [] => some []
  | n :: rest =>
      if _h : n.isValidChar then
        (charsOfScalars rest).map (fun l => Char.ofNat n :: l)
      else
        none

/-- UTF-8 decoding of a byte list to a string. -/
def utf8Decode (bs : List Nat) : Option String :=
  match utf8DecodeLoop bs 0 0 with
  | none => none
  | some scalars =>
      match charsOfScalars scalars with
      | none => none
      | some cs => some (String.mk cs)

/-! ## Base58 (the `base-x` codec behind `multihash.toB58String` /
`multihash.fromB58String`)

Bytes are encoded as one `'1'` per leading zero byte followed by the
big-endian base-58 digits of the remaining value, over the Bitcoin
alphabet; decoding is the inverse and fails on a character outside the
alphabet. -/

/-- Bitcoin base58 alphabet (the `base-x` alphabet used by `multihashes`). -/
def base58Alphabet : List Char :=
  "123456789ABCDEFGHJKLMNPQRSTUVWXYZabcdefghijkmnopqrstuvwxyz".data

/-- Digit value to alphabet character. -/
def base58CharOf (d : Nat) : Char := base58Alphabet.getD d '1'

/-- Index of a character in an alphabet, `none` when absent. -/
def alphaValueOf : List Char → Char → Option Nat
  | [], _ => none
  | a :: rest, c => if a = c then some 0 else (alphaValueOf rest c).map (· + 1)

/-- Alphabet character back to digit value. -/
def base58ValueOf (c : Char) : Option Nat := alphaValueOf base58Alphabet c

/-- Little-endian base-`b` digits of `n`, with explicit fuel (`fuel ≥ n`
suffices). -/
def toDigitsLE (b : Nat) : Nat → Nat → List Nat
  | 0, _ => []
  | fuel + 1, n => if n = 0 then [] else n % b :: toDigitsLE b fuel (n / b)

/-- Value of a little-endian digit list. -/
def ofDigitsLE (b : Nat) (l : List Nat) : Nat :=
  l.foldr (fun d acc => d + b * acc) 0

/-- Value of a big-endian digit list. -/
def natOfDigitsBE (b : Nat) (l : List Nat) : Nat :=
  l.foldl (fun acc d => acc * b + d) 0

/-- Big-endian byte-list value. -/
def natOfBytesBE (bs : List Nat) : Nat := natOfDigitsBE 256 bs

/-- `multihash.toB58String(buf)`: one `'1'` per leading zero byte, then the
big-endian base-58 digits of the buffer value. -/
def toB58String (bs : List Nat) : String :=
  String.mk
    (List.replicate (bs.takeWhile (fun b => b == 0)).length '1' ++
      ((toDigitsLE 58 (natOfBytesBE bs) (natOfBytesBE bs)).reverse.map base58CharOf))

/-- Digit values of a character list, `none` on a character outside the
alphabet. -/
def b58decDigits : List Char → Option (List Nat)
  | [] => some []
  | c :: rest =>
      match base58ValueOf c with
      | none => none
      | some d => (b58decDigits rest).map (fun l => d :: l)

/-- `multihash.fromB58String(s)`: leading `'1'`s become zero bytes, the rest
is decoded as a big-endian base-58 value. -/
def fromB58String (s : String) : Option (List Nat) :=
  match b58decDigits (s.data.dropWhile (fun c => c == '1')) with
  | none => none
  | some ds =>
      some (List.replicate (s.data.takeWhile (fun c => c == '1')).length 0 ++
        (toDigitsLE 256 (natOfDigitsBE 58 ds) (natOfDigitsBE 58 ds)).reverse)

/-! ## SHA-256 (Node `crypto.createHash('sha256')`) and SHA-2 multihash

Word-level reference implementation over `Nat` with explicit `% 2^32`
reductions; bytes in, bytes out. -/

/-- 32-bit right rotation. -/
def rotr32 (n x : Nat) : Nat := ((x >>> n) ||| (x <<< (32 - n))) % 4294967296

/-- SHA-256 round constants. -/
def sha256K : List Nat :=
  [1116352408, 1899447441, 3049323471, 3921009573, 961987163, 1508970993,
   2453635748, 2870763221, 3624381080, 310598401, 607225278, 1426881987,
   1925078388, 2162078206, 2614888103, 3248222580, 3835390401, 4022224774,
   264347078, 604807628, 770255983, 1249150122, 1555081692, 1996064986,
   2554220882, 2821834349, 2952996808, 3210313671, 3336571891, 3584528711,
   113926993, 338241895, 666307205, 773529912, 1294757372, 1396182291,
   1695183700, 1986661051, 2177026350, 2456956037, 2730485921, 2820302411,
   3259730800, 3345764771, 3516065817, 3600352804, 4094571909, 275423344,
   430227734, 506948616, 659060556, 883997877, 958139571, 1322822218,
   1537002063, 1747873779, 1955562222, 2024104815, 2227730452, 2361852424,
   2428436474, 2756734187, 3204031479, 3329325298]

/-- SHA-256 initial hash state. -/
def sha256H0 : List Nat :=
  [1779033703, 3144134277, 1013904242, 2773480762,
   1359893119, 2600822924, 528734635, 1541459225]

/-- Big-endian 32-bit words of a byte list (length a multiple of 4). -/
def words32OfBytesBE : List Nat → List Nat
  | b0 :: b1 :: b2 :: b3 :: rest =>
      (((b0 * 256 + b1) * 256 + b2) * 256 + b3) :: words32OfBytesBE rest
  | _ => []

/-- Little-endian bytes of a value, fixed width. -/
def natToBytesLE : Nat → Nat → List Nat
  | 0, _ => []
  | k + 1, n => n % 256 :: natToBytesLE k (n / 256)

def smallSigma0 (x : Nat) : Nat := (rotr32 7 x) ^^^ (rotr32 18 x) ^^^ (x >>> 3)

def smallSigma1 (x : Nat) : Nat := (rotr32 17 x) ^^^ (rotr32 19 x) ^^^ (x >>> 10)

def bigSigma0 (x : Nat) : Nat := (rotr32 2 x) ^^^ (rotr32 13 x) ^^^ (rotr32 22 x)

def bigSigma1 (x : Nat) : Nat := (rotr32 6 x) ^^^ (rotr32 11 x) ^^^ (rotr32 25 x)

def chF (x y z : Nat) : Nat := (x &&& y) ^^^ ((x ^^^ 0xFFFFFFFF) &&& z)

def majF (x y z : Nat) : Nat := (x &&& y) ^^^ (x &&& z) ^^^ (y &&& z)

/-- Message-schedule extension: append `fuel` more words. -/
def scheduleExtend : Nat → List Nat → List Nat
  | 0, ws => ws
  | fuel + 1, ws =>
      let t := ws.length
      scheduleExtend fuel (ws ++
        [(smallSigma1 (ws.getD (t - 2) 0) + ws.getD (t - 7) 0 +
          smallSigma0 (ws.getD (t - 15) 0) + ws.getD (t - 16) 0) % 4294967296])

/-- The eight working registers of the compression loop. -/
structure Sha256Regs where
  a : Nat
  b : Nat
  c : Nat
  d : Nat
  e : Nat
  f : Nat
  g : Nat
  h : Nat

/-- One compression round; `kw` is the `(K[t], W[t])` pair. -/
def sha256Round (st : Sha256Regs) (kw : Nat × Nat) : Sha256Regs :=
  let t1 := (st.h + bigSigma1 st.e + chF st.e st.f st.g + kw.1 + kw.2) % 4294967296
  let t2 := (bigSigma0 st.a + majF st.a st.b st.c) % 4294967296
  { a := (t1 + t2) % 4294967296, b := st.a, c := st.b, d := st.c,
    e := (st.d + t1) % 4294967296, f := st.e, g := st.f, h := st.g }

/-- Compress one 64-byte block into the running hash state. -/
def sha256Block (hs : List Nat) (block : List Nat) : List Nat :=
  let ws := scheduleExtend 48 (words32OfBytesBE block)
  let st0 : Sha256Regs :=
    { a := hs.getD 0 0, b := hs.getD 1 0, c := hs.getD 2 0, d := hs.getD 3 0,
      e := hs.getD 4 0, f := hs.getD 5 0, g := hs.getD 6 0, h := hs.getD 7 0 }
  let st := (sha256K.zip ws).foldl sha256Round st0
  [(hs.getD 0 0 + st.a) % 4294967296, (hs.getD 1 0 + st.b) % 4294967296,
   (hs.getD 2 0 + st.c) % 4294967296, (hs.getD 3 0 + st.d) % 4294967296,
   (hs.getD 4 0 + st.e) % 4294967296, (hs.getD 5 0 + st.f) % 4294967296,
   (hs.getD 6 0 + st.g) % 4294967296, (hs.getD 7 0 + st.h) % 4294967296]

/-- SHA-256 padding: `0x80`, zeros to 56 mod 64, 64-bit big-endian bit length. -/
def sha256Pad (msg : List Nat) : List Nat :=
  msg ++ [0x80] ++ List.replicate ((119 - msg.length % 64) % 64) 0 ++
    (natToBytesLE 8 (8 * msg.length)).reverse

/-- Split into 64-byte chunks (fuel-driven; `fuel ≥ length` suffices). -/
def chunks64 : Nat → List Nat → List (List Nat)
  | 0, _ => []
  | _ + 1, [] => []
  | fuel + 1, bs => bs.take 64 :: chunks64 fuel (bs.drop 64)

/-- SHA-256 digest (32 bytes) of a byte list. -/
def sha256 (msg : List Nat) : List Nat :=
  let padded := sha256Pad msg
  (((chunks64 padded.length padded).foldl sha256Block sha256H0).map
    (fun w => (natToBytesLE 4 w).reverse)).flatten

/-- `multihash.encode(digest, code)` for digests shorter than 128 bytes:
the code byte, the length byte, then the digest (both varints fit in one
byte here; sha2-256 is code `0x12`, sha1 is `0x11`). -/
def multihashEncode (code : Nat) (digest : List Nat) : List Nat :=
  code :: digest.length :: digest

/-- The store key computed by both upload handlers (`upload.ts`):
`'D' + multihash.toB58String(multihash.encode(imageHash, 'sha2-256'))`,
where `imageHash = sha256('ImageSigningChallenge' ‖ data)` is the same
buffer the signature is checked against. -/
def uploadKeyOfData (data : List Nat) : String :=
  "D" ++ toB58String (multihashEncode 0x12
    (sha256 (utf8Encode "ImageSigningChallenge" ++ data)))

/-- The upload-key formula as the specification words it
(`"D" ‖ base58(multihash(sha2-256, bytes))`, spec §3/§6): the multihash of
the digest of exactly the uploaded bytes. Stated separately so it can be
compared with `uploadKeyOfData`, the key the code computes. -/
def specStatedUploadKey (data : List Nat) : String :=
  "D" ++ toB58String (multihashEncode 0x12 (sha256 data))

/-! ## JS string search/replace (`String.prototype.replace` with a string
pattern replaces only the first occurrence; `String.prototype.includes` /
`indexOf` search for a substring). None of the replacement strings used by
the source contain `$`, so replacement-pattern expansion never applies. -/

/-- Is `pat` a prefix of the second list? -/
def isPrefixL : List Char → List Char → Bool
  | [], _ => true
  | _ :: _, [] => false
  | p :: ps, c :: cs => p == c && isPrefixL ps cs

/-- Split at the first occurrence of `pat`: `some (pre, suf)` with
`l = pre ++ pat ++ suf` and no occurrence starting earlier. An empty
pattern matches at position 0, as in JS. -/
def splitFirst (pat : List Char) : List Char → Option (List Char × List Char)
  | [] => if isPrefixL pat [] then some ([], []) else none
  | c :: cs =>
      if isPrefixL pat (c :: cs) then some ([], (c :: cs).drop pat.length)
      else
        match splitFirst pat cs with
        | none => none
        | some (pre, suf) => some (c :: pre, suf)

/-- JS `s.replace(pat, rep)` for a string `pat`: first occurrence only. -/
def replaceFirst (s pat rep : String) : String :=
  match splitFirst pat.data s.data with
  | none => s
  | some (pre, suf) => String.mk (pre ++ rep.data ++ suf)

/-- JS `s.includes(pat)` / `s.indexOf(pat) > -1`. -/
def containsSubstr (s pat : String) : Bool :=
  (splitFirst pat.data s.data).isSome

/-! ## `constants.ts` -/

/-- `constants.ts` domain replacement table, in order. -/
def DOMAIN_REPLACEMENTS : List (String × String) :=
  [("https://img.3speakcontent.online/", "https://img.3speakcontent.co/"),
   ("https://img.inleo.io/D", "https://img.leopedia.io/D")]

/-- `constants.ts` path replacement table: `(domain, oldPath, newPath)`. -/
def PATH_REPLACEMENTS : List (String × String × String) :=
  [("https://img.3speakcontent.co/", "/post.png", "/thumbnails/default.png")]

/-- `constants.ts` `applyUrlReplacements`: the ordered domain-replacement
pass, then the host-conditional path-replacement pass. -/
def applyUrlReplacements (urlString : String) : String :=
  let result := DOMAIN_REPLACEMENTS.foldl
    (fun r (p : String × String) => replaceFirst r p.1 p.2) urlString
  PATH_REPLACEMENTS.foldl
    (fun r (p : String × String × String) =>
      if containsSubstr r p.1 then replaceFirst r p.2.1 p.2.2 else r) result

/-- `constants.ts` `EMPTY_IMAGE_URL_PATTERNS`, parameterized by the
configured service base URL. -/
def EMPTY_IMAGE_URL_PATTERNS (serviceBaseUrl : String) : List String :=
  [serviceBaseUrl ++ "/0x0/", serviceBaseUrl ++ "/0x0"]

/-- `constants.ts` `isEmptyImageUrl`. -/
def isEmptyImageUrl (serviceBaseUrl url : String) : Bool :=
  url == serviceBaseUrl ++ "/0x0/" || url == serviceBaseUrl ++ "/0x0"

/-- `constants.ts` `startsWithEmptyImagePrefix`. -/
def startsWithEmptyImagePrefix (serviceBaseUrl url : String) : Bool :=
  isPrefixL (serviceBaseUrl ++ "/0x0/").data url.data

/-- `constants.ts` `DEFAULT_FALLBACK_IMAGE_URL`. -/
def DEFAULT_FALLBACK_IMAGE_URL (serviceBaseUrl : String) : String :=
  serviceBaseUrl ++ "/DQmY4YngD8ByBgpFtcTRR6wvqYfM1owqtjS6NXyYhKtxv4u/1x1_000000.png"

/-! ## `utils.ts`: base58 string codec and `parseProxiedUrl` -/

/-- `utils.ts` `base58Enc(value)` =
`multihash.toB58String(Buffer.from(value, 'utf8'))`. -/
def base58Enc (value : String) : String :=
  toB58String (utf8Encode value)

/-- `utils.ts` `base58Dec(value)` =
`multihash.fromB58String(value).toString('utf8')`. `none` models the throw
on a character outside the alphabet; a non-UTF-8 byte result is likewise
treated as a decode failure (spec §4.1). -/
def base58Dec (value : String) : Option String :=
  match fromB58String value with
  | none => none
  | some bs => utf8Decode bs

/-- `.replace(/\/+$/, '')`: strip all trailing slashes. -/
def trimTrailingSlashes (s : String) : String :=
  String.mk ((s.data.reverse.dropWhile (fun c => c == '/')).reverse)

/-- `utils.ts` `parseProxiedUrl(value)`. The WHATWG `new URL` parser is the
oracle `parseURL`, returning the parsed URL (represented by its
serialization) or `none` on a parse throw. Any failure — base58 decode,
UTF-8 decode, or URL parse — yields `new URL(DEFAULT_FALLBACK_IMAGE_URL)`
instead of raising. -/
def parseProxiedUrl (parseURL : String → Option String)
    (serviceBaseUrl : String) (value : String) : String :=
  match base58Dec value with
  | none => DEFAULT_FALLBACK_IMAGE_URL serviceBaseUrl
  | some decoded =>
      match parseURL (trimTrailingSlashes decoded) with
      | none => DEFAULT_FALLBACK_IMAGE_URL serviceBaseUrl
      | some u => u

/-! ## `utils.ts`: transform options and image keys

`ScalingMode` and `OutputFormat` are the TS enums; `AVIF` is present per
the spec's normative enum list (§6) and the `OutputFormat.AVIF` uses in
`proxy.ts`, `cover.ts` and the test suite (the copy of `utils.ts` with the
`supportsAvif`/AVIF additions is not among the provided sources). -/

inductive ScalingMode
  | Cover
  | Fit
deriving DecidableEq

inductive OutputFormat
  | Match
  | JPEG
  | PNG
  | WEBP
  | AVIF
deriving DecidableEq

/-- TS reverse enum mapping `ScalingMode[mode]`. -/
def scalingModeName : ScalingMode → String
  | ScalingMode.Cover => "Cover"
  | ScalingMode.Fit => "Fit"

/-- TS reverse enum mapping `OutputFormat[format]`. -/
def outputFormatName : OutputFormat → String
  | OutputFormat.Match => "Match"
  | OutputFormat.JPEG => "JPEG"
  | OutputFormat.PNG => "PNG"
  | OutputFormat.WEBP => "WEBP"
  | OutputFormat.AVIF => "AVIF"

/-- `utils.ts` `ProxyOptions`. JS `number | undefined` fields are
`Option Int`. -/
structure ProxyOptions where
  width : Option Int := none
  height : Option Int := none
  mode : ScalingMode
  format : OutputFormat
  ignorecache : Option Int := none
  invalidate : Option Int := none
  refetch : Option Int := none
deriving DecidableEq

/-- JS truthiness of a `number | undefined`: `undefined` and `0` are falsy. -/
def numTruthy : Option Int → Bool
  | none => false
  | some n => n != 0

/-- `utils.ts` `getImageKey(origKey, options)`. `options.width || 0`
substitutes `0` for a falsy width; `toFixed(0)` of an integral number is
its decimal string. -/
def getImageKey (origKey : String) (options : ProxyOptions) : String :=
  if options.mode = ScalingMode.Fit ∧ options.format = OutputFormat.Match then
    origKey ++ "_" ++ toString (options.width.getD 0) ++ "x" ++
      toString (options.height.getD 0)
  else
    String.intercalate "_"
      ([origKey, scalingModeName options.mode, outputFormatName options.format] ++
        (if numTruthy options.width then [toString (options.width.getD 0)] else []) ++
        (if numTruthy options.height then [toString (options.height.getD 0)] else []))

/-- ASCII lowercasing (`String.prototype.toLowerCase` restricted to the
ASCII range, which covers every string the handlers lowercase). -/
def asciiLower (s : String) : String :=
  String.mk (s.data.map (fun c =>
    if 'A' ≤ c ∧ c ≤ 'Z' then Char.ofNat (c.toNat + 32) else c))

/-- `utils.ts` `supportsWebP(acceptHeader)`: case-insensitive substring
test for `image/webp`. -/
def supportsWebP (acceptHeader : String) : Bool :=
  containsSubstr (asciiLower acceptHeader) "image/webp"

/-- Modelled from the spec: `supportsAvif` is defined in the current
`utils.ts`, which is not among the provided sources (only its tests and
callers are). Per spec §4.10 it is the case-insensitive substring test for
`image/avif`, symmetric to `supportsWebP`. -/
def supportsAvif (acceptHeader : String) : Bool :=
  containsSubstr (asciiLower acceptHeader) "image/avif"

/-- JS `String.prototype.endsWith`. -/
def jsEndsWith (s suffix : String) : Bool :=
  isPrefixL suffix.data.reverse s.data.reverse

/-- `utils.ts` `stripWebpOrPng(value)`: drop one trailing `.webp` or
`.png` extension. -/
def stripWebpOrPng (value : String) : String :=
  if jsEndsWith value ".webp" then value.dropRight 5
  else if jsEndsWith value ".png" then value.dropRight 4
  else value

/-! ## JS `Number.parseInt` -/

def decDigitVal (c : Char) : Option Nat :=
  if '0' ≤ c ∧ c ≤ '9' then some (c.toNat - '0'.toNat) else none

def hexDigitVal (c : Char) : Option Nat :=
  if '0' ≤ c ∧ c ≤ '9' then some (c.toNat - '0'.toNat)
  else if 'a' ≤ c ∧ c ≤ 'f' then some (c.toNat - 'a'.toNat + 10)
  else if 'A' ≤ c ∧ c ≤ 'F' then some (c.toNat - 'A'.toNat + 10)
  else none

/-- Longest digit run; the accumulator is `none` until a digit is seen,
modelling `NaN` when there is none. -/
def parseDigitRun (valOf : Char → Option Nat) (base : Nat) :
    List Char → Option Nat → Option Nat
  | [], acc => acc
  | c :: cs, acc =>
      match valOf c with
      | none => acc
      | some d => parseDigitRun valOf base cs (some (acc.getD 0 * base + d))

/-- JS `Number.parseInt(s)` without a radix argument: skip leading
whitespace, optional sign, hexadecimal on a `0x`/`0X` prefix, else decimal;
`none` models `NaN`. -/
def jsParseInt (s : String) : Option Int :=
  let cs := s.data.dropWhile (fun c =>
    c == ' ' || c == '\t' || c == '\n' || c == '\r')
  match cs with
  | '-' :: rest => (jsParseIntNatPart rest).map (fun n => -(n : Int))
  | '+' :: rest => (jsParseIntNatPart rest).map (fun n => (n : Int))
  | _ => (jsParseIntNatPart cs).map (fun n => (n : Int))
where
  jsParseIntNatPart : List Char → Option Nat
    | '0' :: 'x' :: rest => parseDigitRun hexDigitVal 16 rest none
    | '0' :: 'X' :: rest => parseDigitRun hexDigitVal 16 rest none
    | cs => parseDigitRun decDigitVal 10 cs none

/-! ## Upload file-name handling (`upload.ts` `parseMultipart` and the
name fixup in both handlers) -/

/-- Collapse runs of two or more underscores (`/_{2,}/g → '_'`); the flag
records whether the previous kept character was an underscore. -/
def collapseUnderscores : List Char → Bool → List Char
  | [], _ => []
  | c :: rest, prev =>
      if c == '_' then
        if prev then collapseUnderscores rest true
        else '_' :: collapseUnderscores rest true
      else c :: collapseUnderscores rest false

def isAlnumDot (c : Char) : Bool :=
  ('a' ≤ c ∧ c ≤ 'z') || ('A' ≤ c ∧ c ≤ 'Z') || ('0' ≤ c ∧ c ≤ '9') || c == '.'

/-- `parseMultipart` name sanitization:
`name.replace(/[^a-z0-9.]/gi, '_').replace(/_{2,}/g, '_').toLowerCase()`. -/
def sanitizeFileName (name : String) : String :=
  asciiLower (String.mk (collapseUnderscores
    (name.data.map (fun c => if isAlnumDot c then c else '_')) false))

/-- `const ext = file && file.mime && file.mime.split('/')[1] || 'png'`. -/
def extOfMime (mime : String) : String :=
  let seg := (mime.splitOn "/").getD 1 ""
  if mime ≠ "" ∧ seg ≠ "" then seg else "png"

/-- The file name the handlers use: the sanitized multipart name, or
`image-{Date.now()}.{ext}` when it is empty or has no dot. -/
def resolvedFileName (rawName mime : String) (now : Nat) : String :=
  let name := sanitizeFileName rawName
  if name = "" ∨ containsSubstr name "." = false then
    "image-" ++ toString now ++ "." ++ extOfMime mime
  else name

/-! ## `fetch-image.ts` -/

/-- A `needle` HTTP response as the fetcher inspects it: status code and
body, `body = some bytes` when the body is a byte `Buffer` (`none` for a
parsed non-buffer body). -/
structure NeedleResp where
  statusCode : Nat
  body : Option (List Nat)
deriving DecidableEq

/-- The fetcher's acceptance test: `res && res.statusCode &&
Math.floor(res.statusCode / 100) === 2 && Buffer.isBuffer(res.body)`. -/
def respOk (r : NeedleResp) : Bool :=
  r.statusCode != 0 && r.statusCode / 100 == 2 && r.body.isSome

/-- `fetch-image.ts` `fallbackDomains`, in declared order. -/
def fallbackDomains : List String :=
  ["",
   "https://images.hive.blog/0x0/",
   "https://steemitimages.com/0x0/",
   "https://wsrv.nl/?url=",
   "https://img.leopedia.io/0x0/",
   "https://images.hive.blog/p/",
   "https://steemitimages.com/p/"]

/-- `fetch-image.ts` `buildFallbackUrls`. -/
def buildFallbackUrls (urlString urlParams : String) : List String :=
  fallbackDomains.map (fun domain =>
    if domain = "" then urlString
    else if jsEndsWith domain "/p/" then domain ++ urlParams
    else domain ++ urlString)

/-- JS `String.prototype.trim` (ASCII whitespace). -/
def jsTrim (s : String) : String :=
  String.mk (((s.data.dropWhile (fun c =>
    c == ' ' || c == '\t' || c == '\n' || c == '\r')).reverse.dropWhile (fun c =>
    c == ' ' || c == '\t' || c == '\n' || c == '\r')).reverse)

/-- The sequential candidate loop: first accepted response wins; a `none`
from the oracle is a thrown/failed request, which is logged and skipped. -/
def fetchLoop (fetch : String → Option NeedleResp) : List String → Option NeedleResp
  | [] => none
  | c :: rest =>
      match fetch c with
      | some r => if respOk r then some r else fetchLoop fetch rest
      | none => fetchLoop fetch rest

/-- `fetch-image.ts` `fetchImageWithFallbacks`. The HTTP client (with its
timeout and user-agent configuration) is the oracle `fetch`; the returned
`Bool` is `isFallback`; `Except.error ()` is the final
`throw new Error('All fallbacks failed, ...')`. -/
def fetchImageWithFallbacks (fetch : String → Option NeedleResp)
    (urlString urlParams : String) (skipUrls : List String)
    (defaultUrl : String) : Except Unit (NeedleResp × Bool) :=
  let urls := (buildFallbackUrls urlString urlParams).filter
    (fun url => !(skipUrls.contains (jsTrim url)))
  match fetchLoop fetch urls with
  | some r => Except.ok (r, false)
  | none =>
      match fetch defaultUrl with
      | some r => if respOk r then Except.ok (r, true) else Except.error ()
      | none => Except.error ()

/-! ## Error taxonomy

Modelled from the spec: `error.ts` (the `APIError` class and its `Code`
enum) is not among the provided sources; the kind names follow spec §7. -/

inductive APICode
  | BadRequest
  | InvalidMethod
  | InvalidParam
  | MissingParam
  | InvalidSignature
  | InvalidProxyUrl
  | InvalidImage
  | FileMissing
  | LengthRequired
  | PayloadTooLarge
  | NoSuchAccount
  | NotFound
  | Deplorable
  | QoutaExceeded
  | Blacklisted
  | UpstreamError
  | InternalError
deriving DecidableEq

/-! ## `proxy.ts` `parseOptions` -/

/-- The query parameters `parseOptions` reads, as raw strings (`none` =
absent key). -/
structure ProxyQuery where
  width : Option String := none
  height : Option String := none
  mode : Option String := none
  format : Option String := none
  ignorecache : Option String := none
  invalidate : Option String := none
  refetch : Option String := none

/-- `Number.parseInt(query[k]) || undefined`: an absent value parses to
`NaN`; `NaN` and `0` both fall back to `undefined`. -/
def parseNumParam : Option String → Option Int
  | none => none
  | some s =>
      match jsParseInt s with
      | none => none
      | some n => if n = 0 then none else some n

/-- The `case undefined / case 'match'` arm of the format switch:
content negotiation preferring AVIF, then WebP, then the original. -/
def negotiateFormat (acceptHeader : String) : OutputFormat :=
  if supportsAvif acceptHeader then OutputFormat.AVIF
  else if supportsWebP acceptHeader then OutputFormat.WEBP
  else OutputFormat.Match

/-- The mode switch: absent and `cover` give `Cover`, `fit` gives `Fit`,
anything else throws `InvalidParam`. -/
def parseModeParam : Option String → Option ScalingMode
  | none => some ScalingMode.Cover
  | some s =>
      if s = "cover" then some ScalingMode.Cover
      else if s = "fit" then some ScalingMode.Fit
      else none

/-- The format switch: absent and `match` negotiate via the Accept header;
`jpeg`/`jpg`, `png`, `webp`, `avif` select their formats; any other value
falls to `default` and is treated as `Match`. -/
def parseFormatParam (acceptHeader : String) : Option String → OutputFormat
  | none => negotiateFormat acceptHeader
  | some s =>
      if s = "match" then negotiateFormat acceptHeader
      else if s = "jpeg" then OutputFormat.JPEG
      else if s = "jpg" then OutputFormat.JPEG
      else if s = "png" then OutputFormat.PNG
      else if s = "webp" then OutputFormat.WEBP
      else if s = "avif" then OutputFormat.AVIF
      else OutputFormat.Match

/-- `proxy.ts` `parseOptions(query, acceptHeader)`; `Except.error` is the
thrown `APIError`. -/
def parseOptions (query : ProxyQuery) (acceptHeader : String) :
    Except APICode ProxyOptions :=
  match parseModeParam query.mode with
  | none => Except.error APICode.InvalidParam
  | some mode =>
      Except.ok
        { width := parseNumParam query.width
          height := parseNumParam query.height
          mode := mode
          format := parseFormatParam acceptHeader query.format
          ignorecache := parseNumParam query.ignorecache
          invalidate := parseNumParam query.invalidate
          refetch := parseNumParam query.refetch }

/-! ## `upload.ts` -/

/-- `utils.ts` `AcceptedContentTypes`. -/
def AcceptedContentTypes : List String :=
  ["image/gif", "image/jpeg", "image/png", "image/webp", "image/svg+xml",
   "image/svg", "image/bmp", "image/apng", "image/avif"]

/-- A dhive account authority: `weight_threshold`, `key_auths` (public key,
weight) and `account_auths` (account name, weight). -/
structure Authority where
  weight_threshold : Int
  key_auths : List (String × Int)
  account_auths : List (String × Int)

/-- The fields of a dhive `ExtendedAccount` the handlers read. -/
structure Account where
  name : String
  posting : Authority
  active : Authority
  owner : Authority

/-- The profile fields the handlers read. -/
structure Profile where
  reputation : Int

/-- The `signed_message` part of a HiveSigner token. -/
structure SignedMessage where
  type : Option String := none
  app : Option String := none
deriving DecidableEq

/-- A decoded HiveSigner token (`JSON.parse` result); absent JSON fields
are `none`. -/
structure TokenObj where
  authors : Option (List String) := none
  signatures : Option (List String) := none
  signed_message : Option SignedMessage := none
  timestamp : Option Int := none
deriving DecidableEq

/-- The token shape check both handlers share: `tokenObj.authors &&
tokenObj.authors[0] && tokenObj.signatures && tokenObj.signatures[0] &&
signedMessage && signedMessage.type && ['login','posting','offline','code',
'refresh'].includes(signedMessage.type) && signedMessage.app`. -/
def tokenShapeOk (t : TokenObj) : Bool :=
  match t.authors, t.signatures, t.signed_message with
  | some (a0 :: _), some (s0 :: _), some sm =>
      a0 != "" && s0 != "" &&
      (match sm.type with
       | some ty =>
           ty != "" && (["login", "posting", "offline", "code", "refresh"].contains ty)
       | none => false) &&
      (match sm.app with
       | some app => app != ""
       | none => false)
  | _, _, _ => false

/-- `upload.ts` `b64uToB64`: the regex `/(-|_|\.)/g` maps only `-`, `_`
and `.` through the lookup table. -/
def b64uToB64 (s : String) : String :=
  String.mk (s.data.map (fun c =>
    if c == '-' then '+'
    else if c == '_' then '/'
    else if c == '.' then '='
    else c))

/-- Externally observable actions of an upload handler run. `sigVerification`
is one secp256k1 operation (a `verify` or `recover` call). -/
inductive UploadEffect
  | rpcGetAccount (name : String)
  | rpcGetProfile (name : String)
  | sigVerification
  | storeWriteE (key : String)
deriving DecidableEq

/-- The multipart file as `parseMultipart` resolves it (first file part);
`truncated` is Busboy's size-limit flag. -/
structure MultipartFile where
  rawName : String
  mime : String
  truncated : Bool
  data : List Nat

/-- External collaborators of `upload.ts`, as oracles: the RPC client, the
dhive secp256k1 operations, JSON token parsing, the redis rate limiter and
the upload blob store. -/
structure UploadOracles where
  getAccount : String → Option Account
  getProfile : String → Option Profile
  sigParseOk : String → Bool
  sigRecover : String → List Nat → Option String
  broadcasterVerify : List Nat → String → Bool
  keyVerify : String → List Nat → String → Bool
  tokenHash : TokenObj → List Nat
  tokenParse : String → Option TokenObj
  tokenParse64 : String → Option TokenObj
  ratelimitRemaining : String → Option Int
  storeHas : String → Bool
  storeWriteOk : Bool

/-- The configuration `upload.ts` reads. `serviceUrl` is the configured
`service_url` origin (root path), so `new URL(key + '/' + name,
SERVICE_URL)` serializes to `serviceUrl ++ "/" ++ key ++ "/" ++ name`. -/
structure UploadConfig where
  serviceUrl : String
  maxImageSize : Nat
  appAccount : String
  reputationLimit : Int
  accountBlacklist : List String

structure UploadOk where
  url : String
deriving DecidableEq

/-- Outcome of the direct upload handler: the response (error thrown or
`{url}` body) and the effect trace. -/
structure UploadOutcome where
  response : Except APICode UploadOk
  effects : List UploadEffect

/-- Outcome of the HiveSigner upload handler; `Except.ok none` means the
handler returned without setting a status, a body or an error. -/
structure HsOutcome where
  response : Except APICode (Option UploadOk)
  effects : List UploadEffect

/-- One `account[type].key_auths.forEach` pass of the HiveSigner
verification: a key is verified only while `validSignature` is still
false; each `verify` call is one `sigVerification` effect. -/
def keyAuthsVerifyFold (keyVerify : String → List Nat → String → Bool)
    (hash : List Nat) (sig : String) (auths : List (String × Int))
    (st : Bool × List UploadEffect) : Bool × List UploadEffect :=
  auths.foldl (fun st ka =>
    if st.1 then st
    else (keyVerify ka.1 hash sig, st.2 ++ [UploadEffect.sigVerification])) st

/-- One `account[type].account_auths.forEach` pass: accept when the entry
names the configured app account (no crypto call). -/
def accountAuthsFold (appAccount : String) (auths : List (String × Int))
    (valid : Bool) : Bool :=
  auths.foldl (fun v ka => if !v && ka.1 == appAccount then true else v) valid

/-- One `['posting','active','owner'].forEach` iteration of the HiveSigner
verification: the `account_auths` pass, then the `key_auths` pass. -/
def hsAuthorityPass (keyVerify : String → List Nat → String → Bool)
    (appAccount : String) (hash : List Nat) (sig : String) (auth : Authority)
    (st : Bool × List UploadEffect) : Bool × List UploadEffect :=
  keyAuthsVerifyFold keyVerify hash sig auth.key_auths
    (accountAuthsFold appAccount auth.account_auths st.1, st.2)

/-- The shared admission tail of both handlers: `validSignature` assert,
account blacklist, rate limit (a limiter error bypasses the limit),
reputation, then the write-if-absent store commit and the `{url}` body. -/
def uploadFinish (o : UploadOracles) (cfg : UploadConfig)
    (accountName profileName : String) (data : List Nat) (fname : String)
    (valid : Bool) (effs : List UploadEffect) :
    Except APICode UploadOk × List UploadEffect :=
  if !valid then (Except.error APICode.InvalidSignature, effs)
  else if cfg.accountBlacklist.contains accountName then
    (Except.error APICode.Blacklisted, effs)
  else
    let remainingOk :=
      match o.ratelimitRemaining accountName with
      | none => true
      | some r => decide (0 < r)
    if !remainingOk then (Except.error APICode.QoutaExceeded, effs)
    else
      let effs := effs ++ [UploadEffect.rpcGetProfile profileName]
      match o.getProfile profileName with
      | none => (Except.error APICode.Deplorable, effs)
      | some profile =>
          if profile.reputation < cfg.reputationLimit then
            (Except.error APICode.Deplorable, effs)
          else
            let key := uploadKeyOfData data
            let url := cfg.serviceUrl ++ "/" ++ key ++ "/" ++ fname
            if o.storeHas key then (Except.ok ⟨url⟩, effs)
            else
              let effs := effs ++ [UploadEffect.storeWriteE key]
              if o.storeWriteOk then (Except.ok ⟨url⟩, effs)
              else (Except.error APICode.InternalError, effs)

/-- `upload.ts` `uploadHandler` (POST `/:username/:signature`). -/
def uploadHandler (o : UploadOracles) (cfg : UploadConfig)
    (method : String) (username signature : Option String)
    (contentTypeHeader contentLengthHeader : String)
    (multipart : Option MultipartFile) (now : Nat) : UploadOutcome :=
  if method ≠ "POST" then ⟨Except.error APICode.InvalidMethod, []⟩
  else
    match username, signature with
    | none, _ => ⟨Except.error APICode.MissingParam, []⟩
    | _, none => ⟨Except.error APICode.MissingParam, []⟩
    | some username, some signature =>
      if username = "" ∨ signature = "" then ⟨Except.error APICode.MissingParam, []⟩
      else if !containsSubstr contentTypeHeader "multipart/form-data" then
        ⟨Except.error APICode.BadRequest, []⟩
      else
        match jsParseInt contentLengthHeader with
        | none => ⟨Except.error APICode.LengthRequired, []⟩
        | some len =>
          if (cfg.maxImageSize : Int) < len then ⟨Except.error APICode.PayloadTooLarge, []⟩
          else
            match multipart with
            | none => ⟨Except.error APICode.FileMissing, []⟩
            | some file =>
              let fname := resolvedFileName file.rawName file.mime now
              let data := file.data
              if file.truncated then ⟨Except.error APICode.PayloadTooLarge, []⟩
              else
                let imageHash := sha256 (utf8Encode "ImageSigningChallenge" ++ data)
                let lowName := asciiLower username
                let effs0 := [UploadEffect.rpcGetAccount lowName]
                match o.getAccount lowName with
                | none => ⟨Except.error APICode.NoSuchAccount, effs0⟩
                | some account =>
                  if isPrefixL "hive".data signature.data then
                    let sigStr := replaceFirst (replaceFirst signature "hive" "") "signer" ""
                    match o.tokenParse64 sigStr with
                    | none =>
                        -- uncaught JSON.parse exception surfaces as a 500
                        ⟨Except.error APICode.InternalError, effs0⟩
                    | some t =>
                        if tokenShapeOk t then
                          let hash := o.tokenHash t
                          let signs := (t.signatures.getD []).getD 0 ""
                          let st0 := (o.broadcasterVerify hash signs,
                            effs0 ++ [UploadEffect.sigVerification])
                          let st :=
                            if account.name ≠ "" then
                              keyAuthsVerifyFold o.keyVerify hash signs
                                account.owner.key_auths
                                (keyAuthsVerifyFold o.keyVerify hash signs
                                  account.active.key_auths
                                  (keyAuthsVerifyFold o.keyVerify hash signs
                                    account.posting.key_auths st0))
                            else st0
                          let r := uploadFinish o cfg account.name lowName data fname st.1 st.2
                          ⟨r.1, r.2⟩
                        else
                          let r := uploadFinish o cfg account.name lowName data fname false effs0
                          ⟨r.1, r.2⟩
                  else if isPrefixL "stndt".data signature.data then
                    ⟨Except.error APICode.InvalidSignature, effs0⟩
                  else
                    if !o.sigParseOk signature then
                      ⟨Except.error APICode.InvalidSignature, effs0⟩
                    else
                      let effs1 := effs0 ++ [UploadEffect.sigVerification]
                      match o.sigRecover signature imageHash with
                      | none => ⟨Except.error APICode.InvalidSignature, effs1⟩
                      | some publicKey =>
                          let validP := account.posting.key_auths.any (fun ka =>
                            ka.1 == publicKey &&
                              decide (account.posting.weight_threshold ≤ ka.2))
                          let validA := account.active.key_auths.any (fun ka =>
                            ka.1 == publicKey &&
                              decide (account.active.weight_threshold ≤ ka.2))
                          let r := uploadFinish o cfg account.name lowName data fname
                            (validP || validA) effs1
                          ⟨r.1, r.2⟩

/-- `upload.ts` `uploadHsHandler` (POST `/hs/:accesstoken`). When the
decoded token fails the shape check, the whole verification/store block is
skipped (the `if` has no `else`) and the handler returns having set
neither a body nor an error. -/
def uploadHsHandler (o : UploadOracles) (cfg : UploadConfig)
    (method : String) (accesstoken : Option String)
    (contentTypeHeader contentLengthHeader : String)
    (multipart : Option MultipartFile) (now : Nat) : HsOutcome :=
  if method ≠ "POST" then ⟨Except.error APICode.InvalidMethod, []⟩
  else
    match accesstoken with
    | none => ⟨Except.error APICode.MissingParam, []⟩
    | some token =>
      if token = "" then ⟨Except.error APICode.MissingParam, []⟩
      else if !containsSubstr contentTypeHeader "multipart/form-data" then
        ⟨Except.error APICode.BadRequest, []⟩
      else
        match jsParseInt contentLengthHeader with
        | none => ⟨Except.error APICode.LengthRequired, []⟩
        | some len =>
          if (cfg.maxImageSize : Int) < len then ⟨Except.error APICode.PayloadTooLarge, []⟩
          else
            match multipart with
            | none => ⟨Except.error APICode.FileMissing, []⟩
            | some file =>
              let fname := resolvedFileName file.rawName file.mime now
              let data := file.data
              if file.truncated then ⟨Except.error APICode.PayloadTooLarge, []⟩
              else if !AcceptedContentTypes.contains file.mime then
                ⟨Except.error APICode.InvalidImage, []⟩
              else
                match o.tokenParse (b64uToB64 token) with
                | none =>
                    -- uncaught JSON.parse exception surfaces as a 500
                    ⟨Except.error APICode.InternalError, []⟩
                | some t =>
                    if tokenShapeOk t then
                      let username := (t.authors.getD []).getD 0 ""
                      let effs0 := [UploadEffect.rpcGetAccount username]
                      match o.getAccount username with
                      | none => ⟨Except.error APICode.NoSuchAccount, effs0⟩
                      | some account =>
                          if username ≠ account.name then
                            ⟨Except.error APICode.InvalidSignature, effs0⟩
                          else
                            let hash := o.tokenHash t
                            let signs := (t.signatures.getD []).getD 0 ""
                            let st0 := (o.broadcasterVerify hash signs,
                              effs0 ++ [UploadEffect.sigVerification])
                            let st :=
                              if account.name ≠ "" then
                                hsAuthorityPass o.keyVerify cfg.appAccount hash signs
                                  account.owner
                                  (hsAuthorityPass o.keyVerify cfg.appAccount hash signs
                                    account.active
                                    (hsAuthorityPass o.keyVerify cfg.appAccount hash signs
                                      account.posting st0))
                              else st0
                            let r := uploadFinish o cfg account.name username data fname st.1 st.2
                            ⟨r.1.map some, r.2⟩
                    else
                      ⟨Except.ok none, []⟩

/-! ## `proxy.ts` response tail (lines 360-512) and `fallback.ts`

The tail of `proxyHandler` that produces every cache-miss response: the
bytes have been obtained (fresh fetch or original-store read) and are
transcoded and sent. The Sharp codec, the default-image fetch and the blob
store are oracles. -/

/-- A response as the handlers assemble it (`none` header = never set on
this path; `body = none` = streamed from the store). -/
structure ProxyResp where
  status : Nat := 200
  contentType : Option String := none
  cacheControl : Option String := none
  vary : Option String := none
  etag : Option String := none
  body : Option (List Nat) := none
deriving DecidableEq

/-- Observable actions of the response tail. -/
inductive ProxyEffect
  | resizeE (width height : Option Int) (mode : ScalingMode)
  | storeWriteProxy (key : String)
  | storeRemoveOrigE
  | fetchDefaultE
deriving DecidableEq

/-- Oracles of the response tail: Sharp metadata (with the one retry
through the fetcher, `getSharpMetadataWithRetry`), Sharp encoding, the
default-image fetch, and the proxy store as `fallback.ts` uses it. -/
structure ProxyTailOracles where
  metadataRetry : Except Unit (Option Nat × Option Nat × Bool)
  sharpToBuffer : Option (List Nat)
  fetchDefault : Option (List Nat)
  fbStoreHas : String → Bool
  fbStreamMime : String
  fbToBuffer : Option (List Nat)
  storeWriteOk : Bool

/-- JS truthiness of Sharp's `metadata.width` / `metadata.height`
(`undefined` and `0` are falsy). -/
def natMetaTruthy : Option Nat → Bool
  | none => false
  | some w => w != 0

/-- `proxy.ts` `getProxyImageLimits()` result. -/
structure ProxyLimits where
  maxWidth : Int
  maxHeight : Int
  maxCustomWidth : Int
  maxCustomHeight : Int

/-- `fallback.ts` `serveOrBuildFallbackImage`: stream the cached fallback
artifact, or build, store (best effort) and send it. Both branches set
`Cache-Control: public,max-age=600`; the format switch has no AVIF case,
so `Match` and `AVIF` both fall to the default `jpeg` arm. -/
def serveOrBuildFallbackImage (o : ProxyTailOracles) (options : ProxyOptions)
    (keyPrefix : String) : Except APICode ProxyResp :=
  let fallbackKey := getImageKey keyPrefix options
  if o.fbStoreHas fallbackKey then
    Except.ok
      { status := 200
        etag := some fallbackKey
        contentType := some o.fbStreamMime
        cacheControl := some "public,max-age=600"
        body := none }
  else
    match o.fbToBuffer with
    | none => Except.error APICode.InternalError
    | some rv =>
        let ct :=
          match options.format with
          | OutputFormat.JPEG => "image/jpeg"
          | OutputFormat.PNG => "image/png"
          | OutputFormat.WEBP => "image/webp"
          | _ => "image/jpeg"
        Except.ok
          { status := 200
            etag := some fallbackKey
            contentType := some ct
            cacheControl := some "public,max-age=600"
            body := some rv }

/-- The transform options `proxy.ts` forwards to
`serveOrBuildFallbackImage` (the cache flags are not passed along). -/
def fallbackOptionsOf (options : ProxyOptions) : ProxyOptions :=
  { width := options.width
    height := options.height
    mode := options.mode
    format := options.format }

/-- `proxy.ts` lines 360-512: GIF/video passthrough, the Sharp pipeline
(metadata with retry, dimension policy, resize, encode), the proxy-store
write-back, and the final `Content-Type` / `Vary` / `Cache-Control`
headers. `isDefaultImage0` and `origFromCache` are the flags accumulated
by the earlier part of the handler; `Except.error` is a thrown
`APIError`. -/
def proxyRespondTail (o : ProxyTailOracles) (limits : ProxyLimits)
    (options : ProxyOptions) (imageKey : String) (contentType0 : String)
    (origData : List Nat) (isDefaultImage0 origFromCache : Bool) :
    Except APICode ProxyResp × List ProxyEffect :=
  let finalHeaders := fun (ct : String) (isDefaultImage : Bool) (rv : List Nat) =>
    ({ status := 200
       contentType := some ct
       vary := some "Accept"
       cacheControl := some (if isDefaultImage then "public,max-age=600"
         else "public,max-age=31536000,immutable")
       body := some rv } : ProxyResp)
  if (contentType0 = "image/gif" ∨ contentType0 = "video/mp4" ∨
        contentType0 = "image/apng") ∧
      (options.format = OutputFormat.Match ∨ options.format = OutputFormat.WEBP ∨
        options.format = OutputFormat.AVIF) ∧
      options.mode = ScalingMode.Fit then
    (Except.ok (finalHeaders contentType0 isDefaultImage0 origData), [])
  else if containsSubstr contentType0 "video" then
    (Except.ok (finalHeaders contentType0 isDefaultImage0 origData), [])
  else
    match o.metadataRetry with
    | Except.error _ =>
        if origFromCache then
          match o.fetchDefault with
          | none =>
              (Except.error APICode.InternalError,
                [ProxyEffect.storeRemoveOrigE, ProxyEffect.fetchDefaultE])
          | some _ =>
              (serveOrBuildFallbackImage o (fallbackOptionsOf options) "default-avatar",
                [ProxyEffect.storeRemoveOrigE, ProxyEffect.fetchDefaultE])
        else (Except.error APICode.InvalidImage, [])
    | Except.ok (metaW, metaH, metaFb) =>
        let isDefaultImage := isDefaultImage0 || metaFb
        if !(natMetaTruthy metaW && natMetaTruthy metaH) then
          (Except.error APICode.InvalidImage, [])
        else
          let width0 := options.width
          let height0 := options.height
          let width1 :=
            match width0 with
            | some w => if 0 < w ∧ limits.maxCustomWidth < w
                then some limits.maxCustomWidth else some w
            | none => none
          let height1 :=
            match height0 with
            | some h => if 0 < h ∧ limits.maxCustomHeight < h
                then some limits.maxCustomHeight else some h
            | none => none
          let bothUnspecified : Bool :=
            (width1 == none || width1 == some 0) && (height1 == none || height1 == some 0)
          let width2 :=
            if bothUnspecified &&
                (match metaW with
                 | some w => w != 0 && decide (limits.maxWidth < (w : Int))
                 | none => false) then some limits.maxWidth else width1
          let height2 :=
            if bothUnspecified &&
                (match metaH with
                 | some h => h != 0 && decide (limits.maxHeight < (h : Int))
                 | none => false) then some limits.maxHeight else height1
          let width3 := if width2 = some 0 then none else width2
          let height3 := if height2 = some 0 then none else height2
          let resizeArgs :=
            match options.mode with
            | ScalingMode.Cover => (width3, height3, ScalingMode.Cover)
            | ScalingMode.Fit =>
                if width3 = none ∧ height3 = none then
                  (some limits.maxWidth, some limits.maxHeight, ScalingMode.Fit)
                else (width3, height3, ScalingMode.Fit)
          let ct :=
            match options.format with
            | OutputFormat.Match => contentType0
            | OutputFormat.JPEG => "image/jpeg"
            | OutputFormat.PNG => "image/png"
            | OutputFormat.WEBP => "image/webp"
            | OutputFormat.AVIF => "image/avif"
          let effs := [ProxyEffect.resizeE resizeArgs.1 resizeArgs.2.1 resizeArgs.2.2]
          match o.sharpToBuffer with
          | none =>
              if origFromCache then
                match o.fetchDefault with
                | none =>
                    (Except.error APICode.InternalError,
                      effs ++ [ProxyEffect.storeRemoveOrigE, ProxyEffect.fetchDefaultE])
                | some _ =>
                    (serveOrBuildFallbackImage o (fallbackOptionsOf options) "default-avatar",
                      effs ++ [ProxyEffect.storeRemoveOrigE, ProxyEffect.fetchDefaultE])
              else (Except.error APICode.InvalidImage, effs)
          | some rv =>
              if !isDefaultImage then
                (Except.ok (finalHeaders ct isDefaultImage rv),
                  effs ++ [ProxyEffect.storeWriteProxy imageKey])
              else
                (Except.ok (finalHeaders ct isDefaultImage rv), effs)

/-- The `[_{W}]` component of the long image-key form: present exactly for
a set (truthy) dimension. -/
def dimSuffix (w : Option Int) : String :=
  if numTruthy w then "_" ++ toString (w.getD 0) else ""

/-- Options `width=100, height=200, mode=Fit, format=Match`. -/
def demoOptsFitMatch : ProxyOptions :=
  { width := some 100, height := some 200, mode := ScalingMode.Fit, format := OutputFormat.Match }

/-- Options `width=512, mode=Cover, format=WEBP`. -/
def demoOptsCoverWebp : ProxyOptions :=
  { width := some 512, mode := ScalingMode.Cover, format := OutputFormat.WEBP }

/-- Query `?mode=zoom`. -/
def demoQueryZoom : ProxyQuery := { mode := some "zoom" }

/-- Query `?format=gif`. -/
def demoQueryGif : ProxyQuery := { format := some "gif" }

/-- The accepted response of one candidate fetch, as the loop tests it. -/
def okResp (fetch : String → Option NeedleResp) (url : String) : Option NeedleResp :=
  match fetch url with
  | some r => if respOk r then some r else none
  | none => none

/-- An authority with no keys. -/
def demoAuthorityEmpty : Authority :=
  { weight_threshold := 1, key_auths := [], account_auths := [] }

/-- Test account `foo` whose posting authority holds one key of weight 1. -/
def demoAccount : Account :=
  { name := "foo"
    posting := { weight_threshold := 1, key_auths := [("STM7fooPostingKey", 1)],
                 account_auths := [] }
    active := demoAuthorityEmpty
    owner := demoAuthorityEmpty }

/-- Oracles for a clean direct-signature upload of account `foo`: the
recovered key is `foo`'s posting key, the store is empty, every external
call succeeds. -/
def demoOracles : UploadOracles :=
  { getAccount := fun n => if n = "foo" then some demoAccount else none
    getProfile := fun n => if n = "foo" then some { reputation := 70 } else none
    sigParseOk := fun _ => true
    sigRecover := fun _ _ => some "STM7fooPostingKey"
    broadcasterVerify := fun _ _ => false
    keyVerify := fun _ _ _ => false
    tokenHash := fun _ => []
    tokenParse := fun _ => none
    tokenParse64 := fun _ => none
    ratelimitRemaining := fun _ => some 10
    storeHas := fun _ => false
    storeWriteOk := true }

/-- Default configuration values (spec §6). -/
def demoConfig : UploadConfig :=
  { serviceUrl := "https://images.ecency.com"
    maxImageSize := 30000000
    appAccount := "ecency.app"
    reputationLimit := 10
    accountBlacklist := [] }

/-- An empty JPEG upload under the given file name. -/
def demoFile (name : String) : MultipartFile :=
  { rawName := name, mime := "image/jpeg", truncated := false, data := [] }

/-- `demoOracles` with the key of the empty upload already in the store. -/
def demoOraclesKeyPresent : UploadOracles :=
  { demoOracles with
    storeHas := fun k => k == "DQmcRkz9Uzn3TWytc2VryciCe8LFRzfnezUg93CnyE11ife" }

/-- Oracles whose token decoder yields a token with every field absent —
it fails the shape check. -/
def demoHsOracles : UploadOracles :=
  { demoOracles with tokenParse := fun _ => some {} }

/-- Oracles for a clean transcode: metadata 100x80 with no fallback, the
encoder and the default fetch succeed, the fallback store is empty. -/
def demoTailOracles : ProxyTailOracles :=
  { metadataRetry := Except.ok (some 100, some 80, false)
    sharpToBuffer := some [1]
    fetchDefault := some [2]
    fbStoreHas := fun _ => false
    fbStreamMime := "image/jpeg"
    fbToBuffer := some [3]
    storeWriteOk := true }

/-- The default proxy image limits (spec §6). -/
def demoLimits : ProxyLimits :=
  { maxWidth := 1280, maxHeight := 1280, maxCustomWidth := 8000, maxCustomHeight := 8000 }

/-- `?width=200&height=100&mode=cover&format=jpeg&ignorecache=1`: a
cache-bypass request. -/
def demoOptsBypass : ProxyOptions :=
  { width := some 200, height := some 100, mode := ScalingMode.Cover,
    format := OutputFormat.JPEG, ignorecache := some 1 }

/-! ## Theorems -/

theorem utf8DecodeLoop_encodeChar (n : Nat) (rest : List Nat)
    (hn : n < 0x110000) :
    utf8DecodeLoop (utf8EncodeChar n ++ rest) 0 0 =
      (utf8DecodeLoop rest 0 0).map (fun l => n :: l) := by
  unfold utf8EncodeChar
  by_cases h1 : n < 0x80
  · simp only [if_pos h1, List.cons_append, List.nil_append]
    rw [utf8DecodeLoop]
    simp [h1]
  · by_cases h2 : n < 0x800
    · simp only [if_neg h1, if_pos h2, List.cons_append, List.nil_append]
      rw [utf8DecodeLoop]
      have hb0lo : ¬ (0xC0 + n / 64 < 0x80) := by omega
      have hb0a : ¬ (0xC0 + n / 64 < 0xC0) := by omega
      have hb0b : 0xC0 + n / 64 < 0xE0 := by omega
      simp only [if_neg hb0lo, if_neg hb0a, if_pos hb0b]
      rw [utf8DecodeLoop]
      have hc : 0x80 ≤ 0x80 + n % 64 ∧ 0x80 + n % 64 < 0xC0 := by omega
      simp only [if_pos hc]
      have : (0xC0 + n / 64 - 0xC0) * 64 + (0x80 + n % 64 - 0x80) = n := by omega
      rw [this]
    · by_cases h3 : n < 0x10000
      · simp only [if_neg h1, if_neg h2, if_pos h3, List.cons_append, List.nil_append]
        rw [utf8DecodeLoop]
        have hb0lo : ¬ (0xE0 + n / 4096 < 0x80) := by omega
        have hb0a : ¬ (0xE0 + n / 4096 < 0xC0) := by omega
        have hb0b : ¬ (0xE0 + n / 4096 < 0xE0) := by omega
        have hb0c : 0xE0 + n / 4096 < 0xF0 := by omega
        simp only [if_neg hb0lo, if_neg hb0a, if_neg hb0b, if_pos hb0c]
        rw [utf8DecodeLoop]
        have hc1 : 0x80 ≤ 0x80 + n / 64 % 64 ∧ 0x80 + n / 64 % 64 < 0xC0 := by omega
        simp only [if_pos hc1]
        rw [utf8DecodeLoop]
        have hc2 : 0x80 ≤ 0x80 + n % 64 ∧ 0x80 + n % 64 < 0xC0 := by omega
        simp only [if_pos hc2]
        have : ((0xE0 + n / 4096 - 0xE0) * 64 + (0x80 + n / 64 % 64 - 0x80)) * 64
            + (0x80 + n % 64 - 0x80) = n := by omega
        rw [this]
      · simp only [if_neg h1, if_neg h2, if_neg h3, List.cons_append, List.nil_append]
        rw [utf8DecodeLoop]
        have hb0lo : ¬ (0xF0 + n / 262144 < 0x80) := by omega
        have hb0a : ¬ (0xF0 + n / 262144 < 0xC0) := by omega
        have hb0b : ¬ (0xF0 + n / 262144 < 0xE0) := by omega
        have hb0c : ¬ (0xF0 + n / 262144 < 0xF0) := by omega
        have hb0d : 0xF0 + n / 262144 < 0xF8 := by omega
        simp only [if_neg hb0lo, if_neg hb0a, if_neg hb0b, if_neg hb0c, if_pos hb0d]
        rw [utf8DecodeLoop]
        have hc1 : 0x80 ≤ 0x80 + n / 4096 % 64 ∧ 0x80 + n / 4096 % 64 < 0xC0 := by omega
        simp only [if_pos hc1]
        rw [utf8DecodeLoop]
        have hc2 : 0x80 ≤ 0x80 + n / 64 % 64 ∧ 0x80 + n / 64 % 64 < 0xC0 := by omega
        simp only [if_pos hc2]
        rw [utf8DecodeLoop]
        have hc3 : 0x80 ≤ 0x80 + n % 64 ∧ 0x80 + n % 64 < 0xC0 := by omega
        simp only [if_pos hc3]
        have : (((0xF0 + n / 262144 - 0xF0) * 64 + (0x80 + n / 4096 % 64 - 0x80)) * 64
            + (0x80 + n / 64 % 64 - 0x80)) * 64 + (0x80 + n % 64 - 0x80) = n := by omega
        rw [this]

theorem utf8EncodeChars_cons (c : Char) (cs : List Char) :
    utf8EncodeChars (c :: cs) = utf8EncodeChar c.toNat ++ utf8EncodeChars cs := by
  simp [utf8EncodeChars]

theorem char_toNat_lt (c : Char) : c.toNat < 0x110000 := by
  rcases c.valid with h | h
  · exact Nat.lt_trans h (by norm_num)
  · exact h.2

theorem utf8DecodeLoop_encodeChars (cs : List Char) :
    utf8DecodeLoop (utf8EncodeChars cs) 0 0 = some (cs.map Char.toNat) := by
  induction cs with
  | nil => rfl
  | cons c cs ih =>
      rw [utf8EncodeChars_cons, utf8DecodeLoop_encodeChar c.toNat _ (char_toNat_lt c), ih]
      rfl

theorem char_toNat_isValidChar (c : Char) : Nat.isValidChar c.toNat := c.valid

theorem charsOfScalars_map_toNat (cs : List Char) :
    charsOfScalars (cs.map Char.toNat) = some cs := by
  induction cs with
  | nil => rfl
  | cons c cs ih =>
      rw [List.map_cons, charsOfScalars, dif_pos (char_toNat_isValidChar c), ih]
      simp [Char.ofNat_toNat]

/-- `buf.toString('utf8')` inverts `Buffer.from(s, 'utf8')` on every string. -/
theorem utf8Decode_utf8Encode (s : String) : utf8Decode (utf8Encode s) = some s := by
  cases s with
  | mk cs =>
      simp only [utf8Encode, utf8Decode, utf8DecodeLoop_encodeChars, charsOfScalars_map_toNat]

theorem ofDigitsLE_toDigitsLE (b : Nat) (hb : 2 ≤ b) :
    ∀ fuel n, n ≤ fuel → ofDigitsLE b (toDigitsLE b fuel n) = n := by
  intro fuel
  induction fuel with
  | zero => intro n hn; interval_cases n; rfl
  | succ fuel ih =>
      intro n hn
      rw [toDigitsLE]
      by_cases h0 : n = 0
      · simp [h0, ofDigitsLE]
      · rw [if_neg h0]
        have hdiv : n / b < n := Nat.div_lt_self (Nat.pos_of_ne_zero h0) (by omega)
        have : ofDigitsLE b (toDigitsLE b fuel (n / b)) = n / b := ih _ (by omega)
        simp only [ofDigitsLE, List.foldr_cons] at this ⊢
        rw [this]
        exact Nat.mod_add_div n b

theorem toDigitsLE_lt (b : Nat) (hb : 0 < b) :
    ∀ fuel n d, d ∈ toDigitsLE b fuel n → d < b := by
  intro fuel
  induction fuel with
  | zero => intro n d hd; simp [toDigitsLE] at hd
  | succ fuel ih =>
      intro n d hd
      rw [toDigitsLE] at hd
      by_cases h0 : n = 0
      · simp [h0] at hd
      · rw [if_neg h0] at hd
        rcases List.mem_cons.mp hd with h | h
        · subst h; exact Nat.mod_lt _ hb
        · exact ih _ _ h

theorem toDigitsLE_getLast_ne_zero (b : Nat) (hb : 2 ≤ b) :
    ∀ fuel n, 0 < n → n ≤ fuel →
      toDigitsLE b fuel n ≠ [] ∧ (toDigitsLE b fuel n).getLast? ≠ some 0 := by
  intro fuel
  induction fuel with
  | zero => intro n h1 h2; omega
  | succ fuel ih =>
      intro n h1 h2
      rw [toDigitsLE, if_neg (by omega : ¬ n = 0)]
      by_cases hlt : n < b
      · have hdiv : n / b = 0 := Nat.div_eq_of_lt hlt
        rw [hdiv]
        have hstop : toDigitsLE b fuel 0 = [] := by cases fuel <;> simp [toDigitsLE]
        rw [hstop]
        constructor
        · simp
        · have : n % b = n := Nat.mod_eq_of_lt hlt
          simp [this]
          omega
      · have hpos : 0 < n / b := Nat.div_pos (by omega) (by omega)
        have hle : n / b ≤ fuel := by
          have := Nat.div_lt_self h1 (by omega : 1 < b)
          omega
        obtain ⟨hne, hlast⟩ := ih _ hpos hle
        constructor
        · simp
        · cases hr : toDigitsLE b fuel (n / b) with
          | nil => exact absurd hr hne
          | cons e t =>
              rw [List.getLast?_cons_cons]
              rw [hr] at hlast
              exact hlast

theorem ofDigitsLE_pos (b : Nat) (hb : 2 ≤ b) (l : List Nat)
    (hne : l ≠ []) (hlast : l.getLast? ≠ some 0) : 0 < ofDigitsLE b l := by
  induction l with
  | nil => exact absurd rfl hne
  | cons d rest ih =>
      cases hrest : rest with
      | nil =>
          subst hrest
          have hd : d ≠ 0 := by
            intro h
            exact hlast (by simp [h])
          simp only [ofDigitsLE, List.foldr_cons, List.foldr_nil]
          omega
      | cons e rest' =>
          subst hrest
          have hne' : e :: rest' ≠ [] := by simp
          have hlast' : (e :: rest').getLast? ≠ some 0 := by
            rw [List.getLast?_cons_cons] at hlast
            exact hlast
          have := ih hne' hlast'
          simp only [ofDigitsLE, List.foldr_cons] at this ⊢
          have hb0 : 0 < b := by omega
          nlinarith

theorem toDigitsLE_ofDigitsLE (b : Nat) (hb : 2 ≤ b) (l : List Nat)
    (hdig : ∀ d ∈ l, d < b) (hlast : l.getLast? ≠ some 0) :
    ∀ fuel, ofDigitsLE b l ≤ fuel → toDigitsLE b fuel (ofDigitsLE b l) = l := by
  induction l with
  | nil =>
      intro fuel _
      cases fuel <;> simp [toDigitsLE, ofDigitsLE]
  | cons d rest ih =>
      intro fuel hfuel
      have hval : ofDigitsLE b (d :: rest) = d + b * ofDigitsLE b rest := by
        simp [ofDigitsLE]
      have hd : d < b := hdig d (List.mem_cons_self _ _)
      cases hrest : rest with
      | nil =>
          subst hrest
          have hdpos : 0 < d := by
            rcases Nat.eq_zero_or_pos d with h | h
            · exact absurd (by simp [h]) hlast
            · exact h
          have hv : ofDigitsLE b [d] = d := by simp [ofDigitsLE]
          rw [hv] at hfuel ⊢
          cases fuel with
          | zero => omega
          | succ fuel =>
              rw [toDigitsLE, if_neg (by omega : ¬ d = 0), Nat.mod_eq_of_lt hd,
                Nat.div_eq_of_lt hd]
              cases fuel <;> simp [toDigitsLE]
      | cons e rest' =>
          subst hrest
          have hne' : e :: rest' ≠ [] := by simp
          have hlast' : (e :: rest').getLast? ≠ some 0 := by
            rw [List.getLast?_cons_cons] at hlast
            exact hlast
          have hrpos : 0 < ofDigitsLE b (e :: rest') :=
            ofDigitsLE_pos b hb _ hne' hlast'
          have hvpos : 0 < ofDigitsLE b (d :: e :: rest') := by rw [hval]; positivity
          cases fuel with
          | zero => omega
          | succ fuel =>
              rw [toDigitsLE, if_neg (by omega : ¬ ofDigitsLE b (d :: e :: rest') = 0)]
              have hmod : ofDigitsLE b (d :: e :: rest') % b = d := by
                rw [hval, Nat.add_mul_mod_self_left, Nat.mod_eq_of_lt hd]
              have hdivq : ofDigitsLE b (d :: e :: rest') / b = ofDigitsLE b (e :: rest') := by
                rw [hval, Nat.add_mul_div_left _ _ (by omega : 0 < b),
                  Nat.div_eq_of_lt hd, Nat.zero_add]
              rw [hmod, hdivq,
                ih (fun x hx => hdig x (List.mem_cons_of_mem _ hx)) hlast' fuel
                  (by rw [hval] at hfuel; nlinarith)]

theorem natOfDigitsBE_reverse (b : Nat) (l : List Nat) :
    natOfDigitsBE b l.reverse = ofDigitsLE b l := by
  induction l with
  | nil => rfl
  | cons d rest ih =>
      simp only [List.reverse_cons, natOfDigitsBE, List.foldl_append, List.foldl_cons,
        List.foldl_nil, ofDigitsLE, List.foldr_cons]
      simp only [natOfDigitsBE] at ih
      rw [ih]
      simp only [ofDigitsLE]
      ring

theorem base58_value_char (d : Nat) (hd : d < 58) :
    base58ValueOf (base58CharOf d) = some d := by
  revert hd
  revert d
  decide

theorem base58_char_one_iff (d : Nat) (hd : d < 58) :
    base58CharOf d = '1' ↔ d = 0 := by
  revert hd
  revert d
  decide

theorem natOfDigitsBE_replicate_zero (b z : Nat) (rest : List Nat) :
    natOfDigitsBE b (List.replicate z 0 ++ rest) = natOfDigitsBE b rest := by
  induction z with
  | zero => rfl
  | succ z ih =>
      simp only [List.replicate_succ, List.cons_append, natOfDigitsBE, List.foldl_cons] at ih ⊢
      simpa using ih

theorem takeWhile_replicate_append {α : Type} [BEq α] (p : α → Bool) (a : α)
    (hpa : p a = true) (z : Nat) (l : List α) :
    List.takeWhile p (List.replicate z a ++ l) = List.replicate z a ++ List.takeWhile p l := by
  induction z with
  | zero => simp
  | succ z ih => simp [List.replicate_succ, List.takeWhile_cons, hpa, ih]

theorem dropWhile_replicate_append {α : Type} [BEq α] (p : α → Bool) (a : α)
    (hpa : p a = true) (z : Nat) (l : List α) :
    List.dropWhile p (List.replicate z a ++ l) = List.dropWhile p l := by
  induction z with
  | zero => simp
  | succ z ih => simp [List.replicate_succ, List.dropWhile_cons, hpa, ih]

theorem b58decDigits_map_charOf (l : List Nat) (hl : ∀ d ∈ l, d < 58) :
    b58decDigits (l.map base58CharOf) = some l := by
  induction l with
  | nil => rfl
  | cons d rest ih =>
      simp only [List.map_cons, b58decDigits,
        base58_value_char d (hl d (List.mem_cons_self _ _)),
        ih (fun x hx => hl x (List.mem_cons_of_mem _ hx))]
      rfl

theorem takeWhile_eq_replicate_zero (bs : List Nat) :
    bs.takeWhile (fun b => b == 0) =
      List.replicate (bs.takeWhile (fun b => b == 0)).length 0 := by
  apply List.eq_replicate_length.mpr
  intro x hx
  have := List.mem_takeWhile_imp hx
  simpa using this

theorem dropWhile_head_not {α : Type} (p : α → Bool) (l : List α) :
    l.dropWhile p = [] ∨
      ∃ a t, l.dropWhile p = a :: t ∧ p a = false := by
  induction l with
  | nil => exact Or.inl rfl
  | cons x xs ih =>
      rw [List.dropWhile_cons]
      by_cases hx : p x = true
      · rw [if_pos hx]; exact ih
      · rw [if_neg hx]
        exact Or.inr ⟨x, xs, rfl, by simpa using hx⟩

theorem bytes_roundtrip (rest : List Nat) (hb : ∀ b ∈ rest, b < 256)
    (hhead : ∀ a t, rest = a :: t → a ≠ 0) :
    (toDigitsLE 256 (natOfBytesBE rest) (natOfBytesBE rest)).reverse = rest := by
  have hval : natOfBytesBE rest = ofDigitsLE 256 rest.reverse := by
    have := natOfDigitsBE_reverse 256 rest.reverse
    rw [List.reverse_reverse] at this
    exact this
  cases hr : rest with
  | nil =>
      subst hr
      simp only [natOfBytesBE, natOfDigitsBE, List.foldl_nil]
      rfl
  | cons a t =>
      subst hr
      have hlast : (a :: t).reverse.getLast? ≠ some 0 := by
        rw [List.getLast?_reverse]
        intro h
        exact hhead a t rfl (by simpa using h)
      have hdig : ∀ d ∈ (a :: t).reverse, d < 256 := by
        intro d hd
        exact hb d (List.mem_reverse.mp hd)
      have := toDigitsLE_ofDigitsLE 256 (by norm_num) (a :: t).reverse hdig hlast
        (ofDigitsLE 256 (a :: t).reverse) (le_refl _)
      rw [hval, this, List.reverse_reverse]

/-- Base58 decode inverts base58 encode on every byte buffer. -/
theorem fromB58String_toB58String (bs : List Nat) (hbs : ∀ b ∈ bs, b < 256) :
    fromB58String (toB58String bs) = some bs := by
  have hsplit : bs.takeWhile (fun b => b == 0) ++ bs.dropWhile (fun b => b == 0) = bs :=
    List.takeWhile_append_dropWhile _ _
  have hrepl := takeWhile_eq_replicate_zero bs
  set z := (bs.takeWhile (fun b => b == 0)).length with hz
  set rest := bs.dropWhile (fun b => b == 0) with hrest
  have hbs_eq : List.replicate z 0 ++ rest = bs := by
    rw [← hrepl]
    exact hsplit
  have hrest_lt : ∀ b ∈ rest, b < 256 := by
    intro b hbmem
    exact hbs b ((List.dropWhile_sublist _).subset hbmem)
  have hrest_head : ∀ a t, rest = a :: t → a ≠ 0 := by
    intro a t hat ha0
    rcases dropWhile_head_not (fun b => b == 0) bs with h | ⟨a2, t2, h2, hp2⟩
    · rw [← hrest] at h; rw [h] at hat; exact List.noConfusion hat
    · rw [← hrest] at h2
      rw [hat] at h2
      have ha : a = a2 := (List.cons.injEq _ _ _ _ ▸ h2).1
      subst ha0
      rw [← ha] at hp2
      simp at hp2
  have hN : natOfBytesBE bs = natOfBytesBE rest := by
    rw [← hbs_eq]
    exact natOfDigitsBE_replicate_zero 256 z rest
  cases hrc : rest with
  | nil =>
      have hN0 : natOfBytesBE bs = 0 := by
        rw [hN, hrc]; rfl
      have hbs' : bs = List.replicate z 0 := by rw [← hbs_eq, hrc, List.append_nil]
      rw [toB58String, hN0]
      have hdig0 : toDigitsLE 58 0 0 = [] := rfl
      rw [hdig0]
      simp only [List.reverse_nil, List.map_nil, List.append_nil]
      rw [fromB58String]
      have htake : (List.replicate z '1').takeWhile (fun c => c == '1') = List.replicate z '1' := by
        have h := takeWhile_replicate_append (fun c => c == '1') '1' (by simp) z ([] : List Char)
        simp only [List.append_nil, List.takeWhile_nil] at h
        exact h
      have hdropw : (List.replicate z '1').dropWhile (fun c => c == '1') = [] := by
        have h := dropWhile_replicate_append (fun c => c == '1') '1' (by simp) z ([] : List Char)
        simp only [List.append_nil, List.dropWhile_nil] at h
        exact h
      simp only [hdropw, htake, b58decDigits, List.length_replicate]
      have hzero : (toDigitsLE 256 (natOfDigitsBE 58 ([] : List Nat))
          (natOfDigitsBE 58 ([] : List Nat))).reverse = ([] : List Nat) := rfl
      rw [hzero, List.append_nil, hbs']
  | cons a t =>
      have hNpos : 0 < natOfBytesBE rest := by
        rw [hrc]
        have hval : natOfBytesBE (a :: t) = ofDigitsLE 256 (a :: t).reverse := by
          have := natOfDigitsBE_reverse 256 (a :: t).reverse
          rw [List.reverse_reverse] at this
          exact this
        rw [hval]
        apply ofDigitsLE_pos 256 (by norm_num)
        · simp
        · rw [List.getLast?_reverse]
          intro h
          exact hrest_head a t hrc (by simpa using h)
      set N := natOfBytesBE rest with hNdef
      have hNbs : natOfBytesBE bs = N := hN
      have hd58 := toDigitsLE_getLast_ne_zero 58 (by norm_num) N N hNpos (le_refl N)
      have hd58lt : ∀ d ∈ toDigitsLE 58 N N, d < 58 := fun d hd =>
        toDigitsLE_lt 58 (by norm_num) N N d hd
      obtain ⟨hd58ne, hd58last⟩ := hd58
      obtain ⟨m, tl, hmt⟩ : ∃ m tl, (toDigitsLE 58 N N).reverse = m :: tl := by
        cases hrev : (toDigitsLE 58 N N).reverse with
        | nil =>
            exact absurd (by simpa using congrArg List.reverse hrev) hd58ne
        | cons m tl => exact ⟨m, tl, rfl⟩
      have hm_ne : m ≠ 0 := by
        intro hm0
        have : (toDigitsLE 58 N N).getLast? = some m := by
          rw [← List.head?_reverse, hmt]
          rfl
        rw [hm0] at this
        exact hd58last this
      have hm_lt : m < 58 := by
        apply hd58lt
        have : m ∈ (toDigitsLE 58 N N).reverse := by rw [hmt]; exact List.mem_cons_self _ _
        exact List.mem_reverse.mp this
      have hchar1 : (base58CharOf m == '1') = false := by
        have h1 := (base58_char_one_iff m hm_lt).not.mpr hm_ne
        exact beq_eq_false_iff_ne.mpr h1
      rw [toB58String, hNbs]
      rw [fromB58String]
      have henc : (List.replicate z '1' ++ (toDigitsLE 58 N N).reverse.map base58CharOf) =
          List.replicate z '1' ++ (base58CharOf m :: tl.map base58CharOf) := by
        rw [hmt]; rfl
      rw [henc]
      have htake : (List.replicate z '1' ++ (base58CharOf m :: tl.map base58CharOf)).takeWhile
          (fun c => c == '1') = List.replicate z '1' := by
        rw [takeWhile_replicate_append (fun c => c == '1') '1' (by simp) z _]
        rw [List.takeWhile_cons, hchar1]
        simp
      have hdropw : (List.replicate z '1' ++ (base58CharOf m :: tl.map base58CharOf)).dropWhile
          (fun c => c == '1') = base58CharOf m :: tl.map base58CharOf := by
        rw [dropWhile_replicate_append (fun c => c == '1') '1' (by simp) z _]
        rw [List.dropWhile_cons, hchar1]
        simp
      simp only [htake, hdropw, List.length_replicate]
      have hdecd : b58decDigits (base58CharOf m :: tl.map base58CharOf) =
          some ((toDigitsLE 58 N N).reverse) := by
        have : base58CharOf m :: tl.map base58CharOf = (m :: tl).map base58CharOf := rfl
        rw [this, b58decDigits_map_charOf, hmt]
        intro d hd
        rw [← hmt] at hd
        exact hd58lt d (List.mem_reverse.mp hd)
      rw [hdecd]
      have hback : natOfDigitsBE 58 (toDigitsLE 58 N N).reverse = N := by
        rw [natOfDigitsBE_reverse]
        exact ofDigitsLE_toDigitsLE 58 (by norm_num) N N (le_refl N)
      show some (List.replicate z 0 ++
        (toDigitsLE 256 (natOfDigitsBE 58 (toDigitsLE 58 N N).reverse)
          (natOfDigitsBE 58 (toDigitsLE 58 N N).reverse)).reverse) = some bs
      rw [hback]
      have hbytes := bytes_roundtrip rest hrest_lt hrest_head
      rw [← hNdef] at hbytes
      rw [hbytes, hbs_eq]

theorem replaceFirst_of_not_contains (s pat rep : String)
    (h : containsSubstr s pat = false) : replaceFirst s pat rep = s := by
  rw [containsSubstr] at h
  have hnone : splitFirst pat.data s.data = none := by
    cases hs : splitFirst pat.data s.data with
    | none => rfl
    | some v => rw [hs] at h; simp at h
  rw [replaceFirst, hnone]

theorem utf8EncodeChar_lt_256 (n : Nat) (hn : n < 0x110000) :
    ∀ b ∈ utf8EncodeChar n, b < 256 := by
  intro b hb
  rw [utf8EncodeChar] at hb
  by_cases h1 : n < 0x80
  · rw [if_pos h1] at hb; simp at hb; omega
  · by_cases h2 : n < 0x800
    · rw [if_neg h1, if_pos h2] at hb
      simp at hb
      rcases hb with h | h <;> omega
    · by_cases h3 : n < 0x10000
      · rw [if_neg h1, if_neg h2, if_pos h3] at hb
        simp at hb
        rcases hb with h | h | h <;> omega
      · rw [if_neg h1, if_neg h2, if_neg h3] at hb
        simp at hb
        rcases hb with h | h | h | h <;> omega

theorem utf8Encode_lt_256 (s : String) : ∀ b ∈ utf8Encode s, b < 256 := by
  intro b hb
  rw [utf8Encode, utf8EncodeChars] at hb
  rw [List.mem_flatten] at hb
  obtain ⟨l, hl, hbl⟩ := hb
  rw [List.mem_map] at hl
  obtain ⟨c, _, hc⟩ := hl
  exact utf8EncodeChar_lt_256 c.toNat (char_toNat_lt c) b (hc ▸ hbl)

/-- `base58Dec ∘ base58Enc` is the identity on every string. -/
theorem base58Dec_base58Enc (s : String) : base58Dec (base58Enc s) = some s := by
  rw [base58Enc, base58Dec,
    fromB58String_toB58String (utf8Encode s) (utf8Encode_lt_256 s)]
  exact utf8Decode_utf8Encode s

/-! ## Claim theorems -/

/-- C5: for every string `S`, `base58Dec (base58Enc S) = S`; and for a URL
represented by its serialization `u`, `parseProxiedUrl (base58Enc u)`
yields exactly what the platform URL parser returns for `u` with its
trailing slashes trimmed. -/
theorem C5_base58_roundtrip :
    (∀ S : String, base58Dec (base58Enc S) = some S) ∧
    (∀ (parseURL : String → Option String) (serviceBaseUrl u v : String),
      parseURL (trimTrailingSlashes u) = some v →
      parseProxiedUrl parseURL serviceBaseUrl (base58Enc u) = v) := by
  refine ⟨base58Dec_base58Enc, ?_⟩
  intro parseURL serviceBaseUrl u v h
  rw [parseProxiedUrl, base58Dec_base58Enc]
  show (match parseURL (trimTrailingSlashes u) with
    | none => DEFAULT_FALLBACK_IMAGE_URL serviceBaseUrl
    | some u => u) = v
  rw [h]

theorem C5_base58_roundtrip_witness :
    base58Dec (base58Enc "https://example.com/image.jpg") =
      some "https://example.com/image.jpg" ∧
    parseProxiedUrl
      (fun s => if s = "https://example.com/a" then some "https://example.com/a" else none)
      "https://images.ecency.com" (base58Enc "https://example.com/a///") =
      "https://example.com/a" :=
  ⟨C5_base58_roundtrip.1 "https://example.com/image.jpg",
    C5_base58_roundtrip.2
      (fun s => if s = "https://example.com/a" then some "https://example.com/a" else none)
      "https://images.ecency.com" "https://example.com/a///" "https://example.com/a"
      (by decide)⟩

/-- C6: `parseProxiedUrl` never raises: when base58 decoding fails, and
when the decoded string does not parse as a URL, it returns the configured
default fallback image URL (the embedding is a total function, so the
two failure clauses cover every non-parsing input). -/
theorem C6_parseProxiedUrl_soft_fail (parseURL : String → Option String)
    (serviceBaseUrl value : String) :
    (base58Dec value = none →
      parseProxiedUrl parseURL serviceBaseUrl value =
        DEFAULT_FALLBACK_IMAGE_URL serviceBaseUrl) ∧
    (∀ decoded, base58Dec value = some decoded →
      parseURL (trimTrailingSlashes decoded) = none →
      parseProxiedUrl parseURL serviceBaseUrl value =
        DEFAULT_FALLBACK_IMAGE_URL serviceBaseUrl) := by
  constructor
  · intro h
    rw [parseProxiedUrl, h]
  · intro decoded h1 h2
    rw [parseProxiedUrl, h1]
    show (match parseURL (trimTrailingSlashes decoded) with
      | none => DEFAULT_FALLBACK_IMAGE_URL serviceBaseUrl
      | some u => u) = DEFAULT_FALLBACK_IMAGE_URL serviceBaseUrl
    rw [h2]

theorem C6_parseProxiedUrl_soft_fail_witness :
    parseProxiedUrl (fun _ => some "x") "https://images.ecency.com"
        "not-valid-base58!!!" =
      "https://images.ecency.com/DQmY4YngD8ByBgpFtcTRR6wvqYfM1owqtjS6NXyYhKtxv4u/1x1_000000.png" ∧
    parseProxiedUrl (fun _ => none) "https://images.ecency.com"
        (base58Enc "not a url") =
      "https://images.ecency.com/DQmY4YngD8ByBgpFtcTRR6wvqYfM1owqtjS6NXyYhKtxv4u/1x1_000000.png" :=
  ⟨(C6_parseProxiedUrl_soft_fail (fun _ => some "x") "https://images.ecency.com"
      "not-valid-base58!!!").1 (by decide),
   (C6_parseProxiedUrl_soft_fail (fun _ => none) "https://images.ecency.com"
      (base58Enc "not a url")).2 "not a url" (base58Dec_base58Enc "not a url") rfl⟩

/-- C7: the image key uses the compact legacy `{origKey}_{W}x{H}` form
(with `0` for unspecified dimensions) exactly for `(mode=Fit,
format=Match)`, and the `{origKey}_{ModeName}_{FormatName}` form with only
the set dimensions appended, each as its own `_`-separated component, for
every other combination. -/
theorem C7_getImageKey_shape (origKey : String) (o : ProxyOptions) :
    (o.mode = ScalingMode.Fit ∧ o.format = OutputFormat.Match →
      getImageKey origKey o =
        origKey ++ "_" ++ toString (o.width.getD 0) ++ "x" ++
          toString (o.height.getD 0)) ∧
    (¬ (o.mode = ScalingMode.Fit ∧ o.format = OutputFormat.Match) →
      getImageKey origKey o =
        origKey ++ "_" ++ scalingModeName o.mode ++ "_" ++
          outputFormatName o.format ++ dimSuffix o.width ++ dimSuffix o.height) := by
  constructor
  · intro h
    rw [getImageKey, if_pos h]
  · intro h
    rw [getImageKey, if_neg h, dimSuffix, dimSuffix]
    by_cases hw : numTruthy o.width = true
    · by_cases hh : numTruthy o.height = true
      · simp only [hw, hh, if_pos]
        simp [String.intercalate, String.intercalate.go, String.append_assoc]
      · simp only [hw, if_pos, if_neg hh]
        simp [String.intercalate, String.intercalate.go, String.append_assoc]
    · by_cases hh : numTruthy o.height = true
      · simp only [if_neg hw, hh, if_pos]
        simp [String.intercalate, String.intercalate.go, String.append_assoc]
      · simp only [if_neg hw, if_neg hh]
        simp [String.intercalate, String.intercalate.go, String.append_assoc]

theorem C7_getImageKey_shape_witness :
    getImageKey "Uabc" demoOptsFitMatch = "Uabc_100x200" ∧
    getImageKey "Uabc" demoOptsCoverWebp = "Uabc_Cover_WEBP_512" := by
  constructor
  · have h := (C7_getImageKey_shape "Uabc" demoOptsFitMatch).1 (by constructor <;> rfl)
    rw [h]
    decide
  · have h := (C7_getImageKey_shape "Uabc" demoOptsCoverWebp).2 (by simp [demoOptsCoverWebp])
    rw [h]
    decide

/-- C10: an unrecognized `mode` query value makes `parseOptions` throw
`InvalidParam`, while an unrecognized `format` value raises nothing and is
silently treated as `format=Match` (without content negotiation). -/
theorem C10_parseOptions_unrecognized_mode_format :
    (∀ (q : ProxyQuery) (accept m : String), q.mode = some m →
      m ≠ "cover" → m ≠ "fit" →
      parseOptions q accept = Except.error APICode.InvalidParam) ∧
    (∀ (q : ProxyQuery) (accept f : String),
      (q.mode = none ∨ q.mode = some "cover" ∨ q.mode = some "fit") →
      q.format = some f →
      f ≠ "match" → f ≠ "jpeg" → f ≠ "jpg" → f ≠ "png" → f ≠ "webp" → f ≠ "avif" →
      ∃ opts, parseOptions q accept = Except.ok opts ∧
        opts.format = OutputFormat.Match) := by
  constructor
  · intro q accept m hm hc hf
    have hmode : parseModeParam q.mode = none := by
      rw [hm, parseModeParam, if_neg hc, if_neg hf]
    rw [parseOptions, hmode]
  · intro q accept f hmode hf h1 h2 h3 h4 h5 h6
    have hfmt : parseFormatParam accept q.format = OutputFormat.Match := by
      rw [hf, parseFormatParam, if_neg h1, if_neg h2, if_neg h3, if_neg h4,
        if_neg h5, if_neg h6]
    have hmode' : ∃ md, parseModeParam q.mode = some md := by
      rcases hmode with h | h | h <;> rw [h] <;> simp [parseModeParam]
    obtain ⟨md, hmd⟩ := hmode'
    refine
      ⟨{ width := parseNumParam q.width
         height := parseNumParam q.height
         mode := md
         format := parseFormatParam accept q.format
         ignorecache := parseNumParam q.ignorecache
         invalidate := parseNumParam q.invalidate
         refetch := parseNumParam q.refetch }, ?_, ?_⟩
    · rw [parseOptions, hmd]
    · exact hfmt

theorem C10_parseOptions_witness :
    parseOptions demoQueryZoom "" = Except.error APICode.InvalidParam ∧
    ∃ opts, parseOptions demoQueryGif "image/avif" = Except.ok opts ∧
      opts.format = OutputFormat.Match :=
  ⟨C10_parseOptions_unrecognized_mode_format.1 demoQueryZoom "" "zoom"
      rfl (by decide) (by decide),
   C10_parseOptions_unrecognized_mode_format.2 demoQueryGif "image/avif" "gif"
      (Or.inl rfl) rfl (by decide) (by decide) (by decide) (by decide) (by decide)
      (by decide)⟩

theorem fetchLoop_eq_findSome (fetch : String → Option NeedleResp) (l : List String) :
    fetchLoop fetch l = l.findSome? (okResp fetch) := by
  induction l with
  | nil => rfl
  | cons c rest ih =>
      rw [fetchLoop, List.findSome?_cons]
      cases hf : fetch c with
      | none => rw [show okResp fetch c = none by rw [okResp, hf]]; exact ih
      | some r =>
          by_cases hok : respOk r = true
          · rw [show okResp fetch c = some r by simp [okResp, hf, hok]]
            show (if respOk r = true then some r else fetchLoop fetch rest) = some r
            rw [if_pos hok]
          · rw [show okResp fetch c = none by simp [okResp, hf, hok]]
            show (if respOk r = true then some r else fetchLoop fetch rest) =
              List.findSome? (okResp fetch) rest
            rw [if_neg hok]
            exact ih

/-- C8: the fetcher tries exactly the declared candidates, in order (the
original URL, the four mirror-prefixed forms, then the two `/p/` forms
from `urlParams`), minus the trimmed entries found in `skipUrls`; the
first response with a 2xx status and a `Buffer` body is returned with
`isFallback = false`; when every candidate fails, one final request to
`defaultUrl` is returned with `isFallback = true` on success, and
otherwise the call throws. `List.findSome?` returns the first hit of the
list, so the equation fixes the sequential order of attempts. -/
theorem C8_fetchImageWithFallbacks_order (fetch : String → Option NeedleResp)
    (u p : String) (skip : List String) (d : String) :
    fetchImageWithFallbacks fetch u p skip d =
      match (([u,
        "https://images.hive.blog/0x0/" ++ u,
        "https://steemitimages.com/0x0/" ++ u,
        "https://wsrv.nl/?url=" ++ u,
        "https://img.leopedia.io/0x0/" ++ u,
        "https://images.hive.blog/p/" ++ p,
        "https://steemitimages.com/p/" ++ p]).filter
          (fun c => !(skip.contains (jsTrim c)))).findSome? (okResp fetch) with
      | some r => Except.ok (r, false)
      | none =>
          match okResp fetch d with
          | some r => Except.ok (r, true)
          | none => Except.error () := by
  have hurls : buildFallbackUrls u p =
      [u,
       "https://images.hive.blog/0x0/" ++ u,
       "https://steemitimages.com/0x0/" ++ u,
       "https://wsrv.nl/?url=" ++ u,
       "https://img.leopedia.io/0x0/" ++ u,
       "https://images.hive.blog/p/" ++ p,
       "https://steemitimages.com/p/" ++ p] := by rfl
  rw [fetchImageWithFallbacks, hurls, fetchLoop_eq_findSome]
  cases hfind : (([u,
      "https://images.hive.blog/0x0/" ++ u,
      "https://steemitimages.com/0x0/" ++ u,
      "https://wsrv.nl/?url=" ++ u,
      "https://img.leopedia.io/0x0/" ++ u,
      "https://images.hive.blog/p/" ++ p,
      "https://steemitimages.com/p/" ++ p]).filter
        (fun c => !(skip.contains (jsTrim c)))).findSome? (okResp fetch) with
  | some r => rfl
  | none =>
      cases hf : fetch d with
      | none => rw [show okResp fetch d = none by rw [okResp, hf]]
      | some r =>
          by_cases hok : respOk r = true
          · rw [show okResp fetch d = some r by simp [okResp, hf, hok]]
            show (if respOk r = true then Except.ok (r, true)
              else (Except.error () : Except Unit (NeedleResp × Bool))) = Except.ok (r, true)
            rw [if_pos hok]
          · rw [show okResp fetch d = none by simp [okResp, hf, hok]]
            show (if respOk r = true then Except.ok (r, true)
              else (Except.error () : Except Unit (NeedleResp × Bool))) = Except.error ()
            rw [if_neg hok]

/-- C4 counterexample: JS `String.replace` with a string pattern rewrites
only the first occurrence, so an input holding two occurrences of a
domain-replacement source is changed again by a second canonicalization
pass: the claimed idempotence fails on this URL string. -/
theorem C4_canonicalize_counterexample :
    applyUrlReplacements (applyUrlReplacements
        "https://img.inleo.io/Da/https://img.inleo.io/Db") ≠
      applyUrlReplacements "https://img.inleo.io/Da/https://img.inleo.io/Db" := by
  decide

/-- C4 (amended): the canonicalizer is idempotent on every input whose
canonical form contains no leftover occurrence of a domain-replacement
source and no reachable `/post.png` path occurrence — in particular on
every URL in which each replacement source occurs at most once. -/
theorem C4_canonicalize_idempotent_on_stable (x : String)
    (h1 : containsSubstr (applyUrlReplacements x)
      "https://img.3speakcontent.online/" = false)
    (h2 : containsSubstr (applyUrlReplacements x)
      "https://img.inleo.io/D" = false)
    (h3 : containsSubstr (applyUrlReplacements x)
        "https://img.3speakcontent.co/" = true →
      containsSubstr (applyUrlReplacements x) "/post.png" = false) :
    applyUrlReplacements (applyUrlReplacements x) = applyUrlReplacements x := by
  set y := applyUrlReplacements x with hy
  show applyUrlReplacements y = y
  rw [applyUrlReplacements]
  simp only [DOMAIN_REPLACEMENTS, PATH_REPLACEMENTS, List.foldl_cons, List.foldl_nil]
  rw [replaceFirst_of_not_contains y _ _ h1]
  rw [replaceFirst_of_not_contains y _ _ h2]
  by_cases hg : containsSubstr y "https://img.3speakcontent.co/" = true
  · rw [if_pos hg, replaceFirst_of_not_contains y _ _ (h3 hg)]
  · rw [if_neg (by simpa using hg)]

theorem C4_canonicalize_idempotent_witness :
    applyUrlReplacements (applyUrlReplacements
        "https://img.3speakcontent.online/foo.jpg") =
      applyUrlReplacements "https://img.3speakcontent.online/foo.jpg" :=
  C4_canonicalize_idempotent_on_stable "https://img.3speakcontent.online/foo.jpg"
    (by decide) (by decide) (by decide)

theorem uploadFinish_ok (o : UploadOracles) (cfg : UploadConfig)
    (an pn : String) (data : List Nat) (fname : String) (valid : Bool)
    (effs : List UploadEffect) (res : UploadOk)
    (h : (uploadFinish o cfg an pn data fname valid effs).1 = Except.ok res) :
    res.url = cfg.serviceUrl ++ "/" ++ uploadKeyOfData data ++ "/" ++ fname ∧
    (uploadFinish o cfg an pn data fname valid effs).2 =
      (if o.storeHas (uploadKeyOfData data) then
        effs ++ [UploadEffect.rpcGetProfile pn]
      else
        effs ++ [UploadEffect.rpcGetProfile pn] ++
          [UploadEffect.storeWriteE (uploadKeyOfData data)]) := by
  by_cases hval : valid = true
  · by_cases hbl : an ∈ cfg.accountBlacklist
    · simp [uploadFinish, hval, hbl] at h
    · by_cases hrem : (match o.ratelimitRemaining an with
        | none => true
        | some r => decide (0 < r)) = true
      · cases hp : o.getProfile pn with
        | none => simp [uploadFinish, hval, hbl, hrem, hp] at h
        | some profile =>
            by_cases hrep : profile.reputation < cfg.reputationLimit
            · simp [uploadFinish, hval, hbl, hrem, hp, hrep] at h
            · by_cases hhas : o.storeHas (uploadKeyOfData data) = true
              · simp [uploadFinish, hval, hbl, hrem, hp, hrep, hhas] at h ⊢
                rw [← h]
              · by_cases hw : o.storeWriteOk = true
                · simp [uploadFinish, hval, hbl, hrem, hp, hrep, hhas, hw] at h ⊢
                  rw [← h]
                · simp [uploadFinish, hval, hbl, hrem, hp, hrep, hhas, hw] at h
      · simp [uploadFinish, hval, hbl, hrem] at h
  · simp [uploadFinish, hval] at h

theorem keyAuthsVerifyFold_no_write (kv : String → List Nat → String → Bool)
    (hash : List Nat) (sig : String) :
    ∀ (auths : List (String × Int)) (st : Bool × List UploadEffect),
      (∀ k, UploadEffect.storeWriteE k ∉ st.2) →
      ∀ k, UploadEffect.storeWriteE k ∉ (keyAuthsVerifyFold kv hash sig auths st).2 := by
  intro auths
  induction auths with
  | nil => intro st hst k; exact hst k
  | cons ka rest ih =>
      intro st hst k
      rw [keyAuthsVerifyFold, List.foldl_cons]
      by_cases hv : st.1 = true
      · exact ih (if st.1 then st else (kv ka.1 hash sig, st.2 ++ [UploadEffect.sigVerification]))
          (by rw [if_pos hv]; exact hst) k
      · refine ih _ ?_ k
        rw [if_neg hv]
        intro k2 hk2
        rcases List.mem_append.mp hk2 with h | h
        · exact hst k2 h
        · simp at h

theorem hsAuthorityPass_no_write (kv : String → List Nat → String → Bool)
    (appAccount : String) (hash : List Nat) (sig : String) (auth : Authority)
    (st : Bool × List UploadEffect)
    (hst : ∀ k, UploadEffect.storeWriteE k ∉ st.2) :
    ∀ k, UploadEffect.storeWriteE k ∉
      (hsAuthorityPass kv appAccount hash sig auth st).2 := by
  intro k
  rw [hsAuthorityPass]
  exact keyAuthsVerifyFold_no_write kv hash sig auth.key_auths _ (by exact hst) k

/-- Every `uploadHandler` run either throws without any store write, or is
the `uploadFinish` tail applied to the multipart file's bytes and resolved
name with a write-free effect prefix. -/
theorem uploadHandler_cases (o : UploadOracles) (cfg : UploadConfig)
    (m : String) (u s : Option String) (cth clh : String)
    (mp : Option MultipartFile) (now : Nat) :
    (∃ e effs, uploadHandler o cfg m u s cth clh mp now =
        ⟨Except.error e, effs⟩ ∧ ∀ k, UploadEffect.storeWriteE k ∉ effs) ∨
    (∃ file an pn valid effs, mp = some file ∧
      (∀ k, UploadEffect.storeWriteE k ∉ effs) ∧
      uploadHandler o cfg m u s cth clh mp now =
        ⟨(uploadFinish o cfg an pn file.data
            (resolvedFileName file.rawName file.mime now) valid effs).1,
         (uploadFinish o cfg an pn file.data
            (resolvedFileName file.rawName file.mime now) valid effs).2⟩) := by
  unfold uploadHandler
  by_cases h1 : m ≠ "POST"
  · simp only [if_pos h1]
    exact Or.inl ⟨_, _, rfl, by simp⟩
  · simp only [if_neg h1]
    rcases u with _ | username
    · rcases s with _ | s0
      · exact Or.inl ⟨_, _, rfl, by simp⟩
      · exact Or.inl ⟨_, _, rfl, by simp⟩
    rcases s with _ | signature
    · exact Or.inl ⟨_, _, rfl, by simp⟩
    by_cases h2 : username = "" ∨ signature = ""
    · simp only [if_pos h2]
      exact Or.inl ⟨_, _, rfl, by simp⟩
    simp only [if_neg h2]
    by_cases h3 : (!containsSubstr cth "multipart/form-data") = true
    · simp only [if_pos h3]
      exact Or.inl ⟨_, _, rfl, by simp⟩
    simp only [if_neg h3]
    rcases hjs : jsParseInt clh with _ | len
    · simp only [hjs]
      exact Or.inl ⟨_, _, rfl, by simp⟩
    simp only [hjs]
    by_cases h4 : (cfg.maxImageSize : Int) < len
    · simp only [if_pos h4]
      exact Or.inl ⟨_, _, rfl, by simp⟩
    simp only [if_neg h4]
    rcases mp with _ | file
    · exact Or.inl ⟨_, _, rfl, by simp⟩
    by_cases h5 : file.truncated = true
    · simp only [if_pos h5]
      exact Or.inl ⟨_, _, rfl, by simp⟩
    simp only [if_neg h5]
    rcases hacc : o.getAccount (asciiLower username) with _ | account
    · simp only [hacc]
      exact Or.inl ⟨_, _, rfl, by simp⟩
    simp only [hacc]
    by_cases h6 : isPrefixL "hive".data signature.data = true
    · simp only [if_pos h6]
      rcases htp : o.tokenParse64
          (replaceFirst (replaceFirst signature "hive" "") "signer" "") with _ | t
      · simp only [htp]
        exact Or.inl ⟨_, _, rfl, by simp⟩
      simp only [htp]
      by_cases h7 : tokenShapeOk t = true
      · simp only [if_pos h7]
        refine Or.inr ⟨file, _, _, _, _, rfl, ?_, rfl⟩
        by_cases h8 : account.name ≠ ""
        · simp only [if_pos h8]
          apply keyAuthsVerifyFold_no_write
          apply keyAuthsVerifyFold_no_write
          apply keyAuthsVerifyFold_no_write
          simp
        · simp only [if_neg h8]
          simp
      · simp only [if_neg h7]
        refine Or.inr ⟨file, _, _, _, _, rfl, ?_, rfl⟩
        simp
    simp only [if_neg h6]
    by_cases h9 : isPrefixL "stndt".data signature.data = true
    · simp only [if_pos h9]
      exact Or.inl ⟨_, _, rfl, by simp⟩
    simp only [if_neg h9]
    by_cases h10 : (!o.sigParseOk signature) = true
    · simp only [if_pos h10]
      exact Or.inl ⟨_, _, rfl, by simp⟩
    simp only [if_neg h10]
    rcases hrec : o.sigRecover signature
        (sha256 (utf8Encode "ImageSigningChallenge" ++ file.data)) with _ | pub
    · simp only [hrec]
      exact Or.inl ⟨_, _, rfl, by simp⟩
    simp only [hrec]
    refine Or.inr ⟨file, _, _, _, _, rfl, ?_, rfl⟩
    simp

/-- Every `uploadHsHandler` run either throws without any store write,
returns silently with no body and no effects (the token-shape-fail path),
or is the `uploadFinish` tail applied to the multipart file's bytes and
resolved name with a write-free effect prefix. -/
theorem uploadHsHandler_cases (o : UploadOracles) (cfg : UploadConfig)
    (m : String) (tok : Option String) (cth clh : String)
    (mp : Option MultipartFile) (now : Nat) :
    (∃ e effs, uploadHsHandler o cfg m tok cth clh mp now =
        ⟨Except.error e, effs⟩ ∧ ∀ k, UploadEffect.storeWriteE k ∉ effs) ∨
    (uploadHsHandler o cfg m tok cth clh mp now = ⟨Except.ok none, []⟩) ∨
    (∃ file an pn valid effs, mp = some file ∧
      (∀ k, UploadEffect.storeWriteE k ∉ effs) ∧
      uploadHsHandler o cfg m tok cth clh mp now =
        ⟨(uploadFinish o cfg an pn file.data
            (resolvedFileName file.rawName file.mime now) valid effs).1.map some,
         (uploadFinish o cfg an pn file.data
            (resolvedFileName file.rawName file.mime now) valid effs).2⟩) := by
  unfold uploadHsHandler
  by_cases h1 : m ≠ "POST"
  · simp only [if_pos h1]
    exact Or.inl ⟨_, _, rfl, by simp⟩
  · simp only [if_neg h1]
    rcases tok with _ | token
    · exact Or.inl ⟨_, _, rfl, by simp⟩
    by_cases h2 : token = ""
    · simp only [if_pos h2]
      exact Or.inl ⟨_, _, rfl, by simp⟩
    simp only [if_neg h2]
    by_cases h3 : (!containsSubstr cth "multipart/form-data") = true
    · simp only [if_pos h3]
      exact Or.inl ⟨_, _, rfl, by simp⟩
    simp only [if_neg h3]
    rcases hjs : jsParseInt clh with _ | len
    · simp only [hjs]
      exact Or.inl ⟨_, _, rfl, by simp⟩
    simp only [hjs]
    by_cases h4 : (cfg.maxImageSize : Int) < len
    · simp only [if_pos h4]
      exact Or.inl ⟨_, _, rfl, by simp⟩
    simp only [if_neg h4]
    rcases mp with _ | file
    · exact Or.inl ⟨_, _, rfl, by simp⟩
    by_cases h5 : file.truncated = true
    · simp only [if_pos h5]
      exact Or.inl ⟨_, _, rfl, by simp⟩
    simp only [if_neg h5]
    by_cases h6 : (!AcceptedContentTypes.contains file.mime) = true
    · simp only [if_pos h6]
      exact Or.inl ⟨_, _, rfl, by simp⟩
    simp only [if_neg h6]
    rcases htp : o.tokenParse (b64uToB64 token) with _ | t
    · simp only [htp]
      exact Or.inl ⟨_, _, rfl, by simp⟩
    simp only [htp]
    by_cases h7 : tokenShapeOk t = true
    · simp only [if_pos h7]
      rcases hacc : o.getAccount ((t.authors.getD []).getD 0 "") with _ | account
      · simp only [hacc]
        exact Or.inl ⟨_, _, rfl, by simp⟩
      simp only [hacc]
      by_cases h8 : (t.authors.getD []).getD 0 "" ≠ account.name
      · simp only [if_pos h8]
        exact Or.inl ⟨_, _, rfl, by simp⟩
      simp only [if_neg h8]
      refine Or.inr (Or.inr ⟨file, _, _, _, _, rfl, ?_, rfl⟩)
      by_cases h9 : account.name ≠ ""
      · simp only [if_pos h9]
        apply hsAuthorityPass_no_write
        apply hsAuthorityPass_no_write
        apply hsAuthorityPass_no_write
        simp
      · simp only [if_neg h9]
        simp
    · simp only [if_neg h7]
      exact Or.inr (Or.inl trivial)

/-- C1 (amended): for every accepted upload through either endpoint, the
store-write key and the key segment of the returned url equal
`"D" ‖ base58(multihash(sha2-256, sha256("ImageSigningChallenge" ‖ B)))`
(`uploadKeyOfData`): the digest covers the signing-challenge prefix
followed by the uploaded bytes, not the bytes alone. -/
theorem C1_upload_key_amended :
    (∀ o cfg m u s cth clh mp now res,
      (uploadHandler o cfg m u s cth clh mp now).response = Except.ok res →
      ∃ file, mp = some file ∧
        res.url = cfg.serviceUrl ++ "/" ++ uploadKeyOfData file.data ++ "/" ++
          resolvedFileName file.rawName file.mime now ∧
        ∀ k, UploadEffect.storeWriteE k ∈
            (uploadHandler o cfg m u s cth clh mp now).effects →
          k = uploadKeyOfData file.data) ∧
    (∀ o cfg m tok cth clh mp now res,
      (uploadHsHandler o cfg m tok cth clh mp now).response =
        Except.ok (some res) →
      ∃ file, mp = some file ∧
        res.url = cfg.serviceUrl ++ "/" ++ uploadKeyOfData file.data ++ "/" ++
          resolvedFileName file.rawName file.mime now ∧
        ∀ k, UploadEffect.storeWriteE k ∈
            (uploadHsHandler o cfg m tok cth clh mp now).effects →
          k = uploadKeyOfData file.data) := by
  constructor
  · intro o cfg m u s cth clh mp now res h
    rcases uploadHandler_cases o cfg m u s cth clh mp now with
      ⟨e, effs, heq, _⟩ | ⟨file, an, pn, valid, effs, hmp, hnw, heq⟩
    · rw [heq] at h
      simp at h
    · rw [heq] at h
      replace h : (uploadFinish o cfg an pn file.data
          (resolvedFileName file.rawName file.mime now) valid effs).1 =
            Except.ok res := h
      obtain ⟨hurl, heffs⟩ := uploadFinish_ok o cfg an pn file.data _ valid effs res h
      refine ⟨file, hmp, hurl, ?_⟩
      intro k hk
      rw [heq] at hk
      replace hk : UploadEffect.storeWriteE k ∈
        (uploadFinish o cfg an pn file.data
          (resolvedFileName file.rawName file.mime now) valid effs).2 := hk
      rw [heffs] at hk
      by_cases hhas : o.storeHas (uploadKeyOfData file.data) = true
      · rw [if_pos hhas] at hk
        rcases List.mem_append.mp hk with hkk | hkk
        · exact absurd hkk (hnw k)
        · simp at hkk
      · rw [if_neg hhas] at hk
        rcases List.mem_append.mp hk with hkk | hkk
        · rcases List.mem_append.mp hkk with hkk2 | hkk2
          · exact absurd hkk2 (hnw k)
          · simp at hkk2
        · simpa using hkk
  · intro o cfg m tok cth clh mp now res h
    rcases uploadHsHandler_cases o cfg m tok cth clh mp now with
      ⟨e, effs, heq, _⟩ | heq | ⟨file, an, pn, valid, effs, hmp, hnw, heq⟩
    · rw [heq] at h
      simp at h
    · rw [heq] at h
      simp at h
    · rw [heq] at h
      replace h : ((uploadFinish o cfg an pn file.data
          (resolvedFileName file.rawName file.mime now) valid effs).1).map some =
            Except.ok (some res) := h
      have h2 : (uploadFinish o cfg an pn file.data
          (resolvedFileName file.rawName file.mime now) valid effs).1 =
            Except.ok res := by
        cases hcase : (uploadFinish o cfg an pn file.data
            (resolvedFileName file.rawName file.mime now) valid effs).1 with
        | error e2 => rw [hcase] at h; simp [Except.map] at h
        | ok r => rw [hcase] at h; simp [Except.map] at h; rw [h]
      obtain ⟨hurl, heffs⟩ := uploadFinish_ok o cfg an pn file.data _ valid effs res h2
      refine ⟨file, hmp, hurl, ?_⟩
      intro k hk
      rw [heq] at hk
      replace hk : UploadEffect.storeWriteE k ∈
        (uploadFinish o cfg an pn file.data
          (resolvedFileName file.rawName file.mime now) valid effs).2 := hk
      rw [heffs] at hk
      by_cases hhas : o.storeHas (uploadKeyOfData file.data) = true
      · rw [if_pos hhas] at hk
        rcases List.mem_append.mp hk with hkk | hkk
        · exact absurd hkk (hnw k)
        · simp at hkk
      · rw [if_neg hhas] at hk
        rcases List.mem_append.mp hk with hkk | hkk
        · rcases List.mem_append.mp hkk with hkk2 | hkk2
          · exact absurd hkk2 (hnw k)
          · simp at hkk2
        · simpa using hkk

set_option maxRecDepth 100000 in
/-- C1 counterexample: an accepted upload of the empty byte string `B = []`
writes store key `DQmcRkz9Uzn3TWytc2VryciCe8LFRzfnezUg93CnyE11ife` (the
multihash of `sha256("ImageSigningChallenge")`), while the claimed formula
`"D" ‖ base58(multihash(sha2-256(B)))` gives the different key
`DQmdfTbBqBPQ7VNxZEYEj14VmRuZBkqFbiwReogJgS1zR1n`: the upload key is not
the content hash of exactly the uploaded bytes. -/
theorem C1_upload_key_counterexample :
    (uploadHandler demoOracles demoConfig "POST" (some "foo") (some "SIG")
        "multipart/form-data; boundary=x" "0" (some (demoFile "test.jpg")) 0).response =
      Except.ok
        ⟨"https://images.ecency.com/DQmcRkz9Uzn3TWytc2VryciCe8LFRzfnezUg93CnyE11ife/test.jpg"⟩ ∧
    (uploadHandler demoOracles demoConfig "POST" (some "foo") (some "SIG")
        "multipart/form-data; boundary=x" "0" (some (demoFile "test.jpg")) 0).effects =
      [UploadEffect.rpcGetAccount "foo", UploadEffect.sigVerification,
       UploadEffect.rpcGetProfile "foo",
       UploadEffect.storeWriteE "DQmcRkz9Uzn3TWytc2VryciCe8LFRzfnezUg93CnyE11ife"] ∧
    specStatedUploadKey [] = "DQmdfTbBqBPQ7VNxZEYEj14VmRuZBkqFbiwReogJgS1zR1n" ∧
    "DQmcRkz9Uzn3TWytc2VryciCe8LFRzfnezUg93CnyE11ife" ≠
      "DQmdfTbBqBPQ7VNxZEYEj14VmRuZBkqFbiwReogJgS1zR1n" := by
  refine ⟨?_, ?_, ?_, ?_⟩
  · rfl
  · rfl
  · rfl
  · decide

set_option maxRecDepth 100000 in
/-- C1 (amended) witness: a concrete accepted direct-signature upload of
the empty byte string. -/
theorem C1_upload_key_amended_witness :
    ∃ file, some (demoFile "test.jpg") = some file ∧
      (UploadOk.mk
          "https://images.ecency.com/DQmcRkz9Uzn3TWytc2VryciCe8LFRzfnezUg93CnyE11ife/test.jpg").url =
        demoConfig.serviceUrl ++ "/" ++ uploadKeyOfData file.data ++ "/" ++
          resolvedFileName file.rawName file.mime 0 ∧
      ∀ k, UploadEffect.storeWriteE k ∈
          (uploadHandler demoOracles demoConfig "POST" (some "foo") (some "SIG")
            "multipart/form-data; boundary=x" "0" (some (demoFile "test.jpg")) 0).effects →
        k = uploadKeyOfData file.data :=
  C1_upload_key_amended.1 demoOracles demoConfig "POST" (some "foo") (some "SIG")
    "multipart/form-data; boundary=x" "0" (some (demoFile "test.jpg")) 0
    (UploadOk.mk
      "https://images.ecency.com/DQmcRkz9Uzn3TWytc2VryciCe8LFRzfnezUg93CnyE11ife/test.jpg")
    (by rfl)

set_option maxRecDepth 100000 in
/-- C3 counterexample: uploading the same bytes (`B = []`) twice — the
second time with the blob already stored — returns different urls when the
multipart file names differ, because the url embeds the file name after
the content-addressed key segment. The second upload performs no store
write, but the returned urls are not equal. -/
theorem C3_upload_url_counterexample :
    (uploadHandler demoOracles demoConfig "POST" (some "foo") (some "SIG")
        "multipart/form-data; boundary=x" "0" (some (demoFile "a.jpg")) 0).response =
      Except.ok
        ⟨"https://images.ecency.com/DQmcRkz9Uzn3TWytc2VryciCe8LFRzfnezUg93CnyE11ife/a.jpg"⟩ ∧
    (uploadHandler demoOraclesKeyPresent demoConfig "POST" (some "foo") (some "SIG")
        "multipart/form-data; boundary=x" "0" (some (demoFile "b.jpg")) 0).response =
      Except.ok
        ⟨"https://images.ecency.com/DQmcRkz9Uzn3TWytc2VryciCe8LFRzfnezUg93CnyE11ife/b.jpg"⟩ ∧
    (uploadHandler demoOraclesKeyPresent demoConfig "POST" (some "foo") (some "SIG")
        "multipart/form-data; boundary=x" "0" (some (demoFile "b.jpg")) 0).effects =
      [UploadEffect.rpcGetAccount "foo", UploadEffect.sigVerification,
       UploadEffect.rpcGetProfile "foo"] ∧
    ("https://images.ecency.com/DQmcRkz9Uzn3TWytc2VryciCe8LFRzfnezUg93CnyE11ife/a.jpg" : String) ≠
      "https://images.ecency.com/DQmcRkz9Uzn3TWytc2VryciCe8LFRzfnezUg93CnyE11ife/b.jpg" := by
  refine ⟨?_, ?_, ?_, ?_⟩
  · rfl
  · rfl
  · rfl
  · decide

/-- C3 (amended): the second upload of the same request (same bytes and
same multipart file name) returns the same url regardless of the store
contents, and the upload store is written exactly when the computed key is
not already present — so a repeat upload performs no second write. -/
theorem C3_upload_write_if_absent :
    (∀ o (s2 : String → Bool) cfg m u s cth clh mp now res res2,
      (uploadHandler o cfg m u s cth clh mp now).response = Except.ok res →
      (uploadHandler { o with storeHas := s2 } cfg m u s cth clh mp now).response =
        Except.ok res2 →
      res.url = res2.url) ∧
    (∀ o cfg m u s cth clh mp now res,
      (uploadHandler o cfg m u s cth clh mp now).response = Except.ok res →
      ∃ file, mp = some file ∧
        (UploadEffect.storeWriteE (uploadKeyOfData file.data) ∈
            (uploadHandler o cfg m u s cth clh mp now).effects ↔
          o.storeHas (uploadKeyOfData file.data) = false)) := by
  constructor
  · intro o s2 cfg m u s cth clh mp now res res2 h h2
    rcases uploadHandler_cases o cfg m u s cth clh mp now with
      ⟨e, effs, heq, _⟩ | ⟨file, an, pn, valid, effs, hmp, hnw, heq⟩
    · rw [heq] at h
      simp at h
    · rcases uploadHandler_cases { o with storeHas := s2 } cfg m u s cth clh mp now with
        ⟨e2, effs2, heq2, _⟩ | ⟨file2, an2, pn2, valid2, effs2, hmp2, hnw2, heq2⟩
      · rw [heq2] at h2
        simp at h2
      · rw [heq] at h
        rw [heq2] at h2
        replace h : (uploadFinish o cfg an pn file.data
            (resolvedFileName file.rawName file.mime now) valid effs).1 =
              Except.ok res := h
        replace h2 : (uploadFinish { o with storeHas := s2 } cfg an2 pn2 file2.data
            (resolvedFileName file2.rawName file2.mime now) valid2 effs2).1 =
              Except.ok res2 := h2
        obtain ⟨hurl, _⟩ := uploadFinish_ok o cfg an pn file.data _ valid effs res h
        obtain ⟨hurl2, _⟩ := uploadFinish_ok { o with storeHas := s2 } cfg an2 pn2
          file2.data _ valid2 effs2 res2 h2
        have hfile : file = file2 := by
          rw [hmp] at hmp2
          exact Option.some.inj hmp2
        rw [hurl, hurl2, hfile]
  · intro o cfg m u s cth clh mp now res h
    rcases uploadHandler_cases o cfg m u s cth clh mp now with
      ⟨e, effs, heq, _⟩ | ⟨file, an, pn, valid, effs, hmp, hnw, heq⟩
    · rw [heq] at h
      simp at h
    · rw [heq] at h
      replace h : (uploadFinish o cfg an pn file.data
          (resolvedFileName file.rawName file.mime now) valid effs).1 =
            Except.ok res := h
      obtain ⟨_, heffs⟩ := uploadFinish_ok o cfg an pn file.data _ valid effs res h
      refine ⟨file, hmp, ?_⟩
      rw [heq]
      show UploadEffect.storeWriteE (uploadKeyOfData file.data) ∈
          (uploadFinish o cfg an pn file.data
            (resolvedFileName file.rawName file.mime now) valid effs).2 ↔
        o.storeHas (uploadKeyOfData file.data) = false
      rw [heffs]
      by_cases hhas : o.storeHas (uploadKeyOfData file.data) = true
      · rw [if_pos hhas]
        constructor
        · intro hmem
          rcases List.mem_append.mp hmem with hm | hm
          · exact absurd hm (hnw _)
          · simp at hm
        · intro hfalse
          rw [hhas] at hfalse
          exact absurd hfalse (by simp)
      · rw [if_neg hhas]
        constructor
        · intro _
          simpa using hhas
        · intro _
          simp

set_option maxRecDepth 100000 in
/-- C3 (amended) witness: replaying the empty-bytes upload with the key
already stored returns the same url and performs no second write. -/
theorem C3_upload_write_if_absent_witness :
    ((UploadOk.mk
        "https://images.ecency.com/DQmcRkz9Uzn3TWytc2VryciCe8LFRzfnezUg93CnyE11ife/a.jpg").url =
      (UploadOk.mk
        "https://images.ecency.com/DQmcRkz9Uzn3TWytc2VryciCe8LFRzfnezUg93CnyE11ife/a.jpg").url) ∧
    ∃ file, some (demoFile "a.jpg") = some file ∧
      (UploadEffect.storeWriteE (uploadKeyOfData file.data) ∈
          (uploadHandler demoOracles demoConfig "POST" (some "foo") (some "SIG")
            "multipart/form-data; boundary=x" "0" (some (demoFile "a.jpg")) 0).effects ↔
        demoOracles.storeHas (uploadKeyOfData file.data) = false) :=
  ⟨C3_upload_write_if_absent.1 demoOracles
      (fun k => k == "DQmcRkz9Uzn3TWytc2VryciCe8LFRzfnezUg93CnyE11ife") demoConfig
      "POST" (some "foo") (some "SIG") "multipart/form-data; boundary=x" "0"
      (some (demoFile "a.jpg")) 0 _ _ (by rfl) (by rfl),
   C3_upload_write_if_absent.2 demoOracles demoConfig
      "POST" (some "foo") (some "SIG") "multipart/form-data; boundary=x" "0"
      (some (demoFile "a.jpg")) 0 _ (by rfl)⟩

/-- C9: when the decoded HiveSigner token fails the shape check (missing
`authors[0]`, `signatures[0]` or `signed_message`, a `type` outside the
allowed set, or a missing `app`), `uploadHsHandler` performs no signature
verification and no store write, and returns with neither a success body
nor an error: the effect trace is empty and the response is unset. -/
theorem C9_hs_token_shape_fail_silent (o : UploadOracles) (cfg : UploadConfig)
    (token cth clh : String) (file : MultipartFile) (now : Nat) (t : TokenObj)
    (len : Int)
    (htok : token ≠ "")
    (hct : containsSubstr cth "multipart/form-data" = true)
    (hlen : jsParseInt clh = some len)
    (hmax : len ≤ (cfg.maxImageSize : Int))
    (htr : file.truncated = false)
    (hmime : AcceptedContentTypes.contains file.mime = true)
    (hparse : o.tokenParse (b64uToB64 token) = some t)
    (hshape : tokenShapeOk t = false) :
    uploadHsHandler o cfg "POST" (some token) cth clh (some file) now =
      ⟨Except.ok none, []⟩ := by
  unfold uploadHsHandler
  have hmime2 : file.mime ∈ AcceptedContentTypes := by simpa using hmime
  simp [hct, hlen, hparse, htr, hmime2, hshape, htok, not_lt.mpr hmax]

theorem C9_hs_token_shape_fail_silent_witness :
    uploadHsHandler demoHsOracles demoConfig "POST" (some "tok")
      "multipart/form-data; boundary=x" "0" (some (demoFile "test.jpg")) 0 =
      ⟨Except.ok none, []⟩ :=
  C9_hs_token_shape_fail_silent demoHsOracles demoConfig "tok"
    "multipart/form-data; boundary=x" "0" (demoFile "test.jpg") 0 {} 0
    (by decide) (by decide) (by decide) (by decide) (by decide) (by decide)
    (by decide) (by decide)

theorem serveOrBuildFallbackImage_cc (o : ProxyTailOracles) (opts : ProxyOptions)
    (kp : String) (resp : ProxyResp)
    (h : serveOrBuildFallbackImage o opts kp = Except.ok resp) :
    resp.cacheControl = some "public,max-age=600" := by
  unfold serveOrBuildFallbackImage at h
  by_cases hs : o.fbStoreHas (getImageKey kp opts) = true
  · rw [if_pos hs] at h
    cases Except.ok.inj h
    rfl
  · rw [if_neg hs] at h
    cases hb : o.fbToBuffer with
    | none => rw [hb] at h; exact absurd h (by simp)
    | some rv =>
        rw [hb] at h
        cases Except.ok.inj h
        rfl

theorem proxyTail_cc_master (o : ProxyTailOracles) (l : ProxyLimits)
    (opts : ProxyOptions) (key ct : String) (data : List Nat)
    (isDef ofc : Bool) (resp : ProxyResp)
    (h : (proxyRespondTail o l opts key ct data isDef ofc).1 = Except.ok resp) :
    resp.cacheControl = some "public,max-age=600" ∨
      (isDef = false ∧
        resp.cacheControl = some "public,max-age=31536000,immutable") := by
  unfold proxyRespondTail at h
  by_cases hgif : (ct = "image/gif" ∨ ct = "video/mp4" ∨ ct = "image/apng") ∧
      (opts.format = OutputFormat.Match ∨ opts.format = OutputFormat.WEBP ∨
        opts.format = OutputFormat.AVIF) ∧ opts.mode = ScalingMode.Fit
  · rw [if_pos hgif] at h
    replace h := Except.ok.inj h
    cases isDef
    · exact Or.inr ⟨rfl, by rw [← h]; rfl⟩
    · exact Or.inl (by rw [← h]; rfl)
  · rw [if_neg hgif] at h
    by_cases hvid : containsSubstr ct "video" = true
    · rw [if_pos hvid] at h
      replace h := Except.ok.inj h
      cases isDef
      · exact Or.inr ⟨rfl, by rw [← h]; rfl⟩
      · exact Or.inl (by rw [← h]; rfl)
    · rw [if_neg hvid] at h
      cases hmeta : o.metadataRetry with
      | error e =>
          simp only [hmeta] at h
          cases hofc : ofc
          · rw [hofc] at h
            exact absurd h (by simp)
          · rw [hofc] at h
            cases hfd : o.fetchDefault with
            | none => rw [hfd] at h; exact absurd h (by simp)
            | some dflt =>
                rw [hfd] at h
                exact Or.inl (serveOrBuildFallbackImage_cc o _ _ resp h)
      | ok meta =>
          obtain ⟨metaW, metaH, metaFb⟩ := meta
          simp only [hmeta] at h
          by_cases hdim : (!(natMetaTruthy metaW && natMetaTruthy metaH)) = true
          · rw [if_pos hdim] at h
            exact absurd h (by simp)
          · rw [if_neg hdim] at h
            cases htb : o.sharpToBuffer with
            | none =>
                simp only [htb] at h
                cases hofc : ofc
                · rw [hofc] at h
                  exact absurd h (by simp)
                · rw [hofc] at h
                  cases hfd : o.fetchDefault with
                  | none => rw [hfd] at h; exact absurd h (by simp)
                  | some dflt =>
                      rw [hfd] at h
                      exact Or.inl (serveOrBuildFallbackImage_cc o _ _ resp h)
            | some rv =>
                simp only [htb] at h
                by_cases hdf : (isDef || metaFb) = true
                · by_cases hnd : (!(isDef || metaFb)) = true
                  · rw [hdf] at hnd
                    simp at hnd
                  · rw [if_neg hnd] at h
                    replace h := Except.ok.inj h
                    rw [← h]
                    rw [hdf]
                    exact Or.inl rfl
                · have hdf2 : (isDef || metaFb) = false := by
                    cases hx : (isDef || metaFb)
                    · rfl
                    · exact absurd hx hdf
                  rw [if_pos (by rw [hdf2]; rfl : (!(isDef || metaFb)) = true)] at h
                  replace h := Except.ok.inj h
                  rw [← h, hdf2]
                  refine Or.inr ⟨?_, rfl⟩
                  cases isDef
                  · rfl
                  · simp at hdf2

theorem proxyTail_cc_normal (o : ProxyTailOracles) (l : ProxyLimits)
    (opts : ProxyOptions) (key ct : String) (data : List Nat) (ofc : Bool)
    (resp : ProxyResp) (mw mh : Option Nat) (rv : List Nat)
    (hmeta : o.metadataRetry = Except.ok (mw, mh, false))
    (htb : o.sharpToBuffer = some rv)
    (h : (proxyRespondTail o l opts key ct data false ofc).1 = Except.ok resp) :
    resp.cacheControl = some "public,max-age=31536000,immutable" := by
  unfold proxyRespondTail at h
  by_cases hgif : (ct = "image/gif" ∨ ct = "video/mp4" ∨ ct = "image/apng") ∧
      (opts.format = OutputFormat.Match ∨ opts.format = OutputFormat.WEBP ∨
        opts.format = OutputFormat.AVIF) ∧ opts.mode = ScalingMode.Fit
  · rw [if_pos hgif] at h
    replace h := Except.ok.inj h
    rw [← h]
    rfl
  · rw [if_neg hgif] at h
    by_cases hvid : containsSubstr ct "video" = true
    · rw [if_pos hvid] at h
      replace h := Except.ok.inj h
      rw [← h]
      rfl
    · rw [if_neg hvid] at h
      simp only [hmeta] at h
      by_cases hdim : (!(natMetaTruthy mw && natMetaTruthy mh)) = true
      · rw [if_pos hdim] at h
        exact absurd h (by simp)
      · rw [if_neg hdim] at h
        simp only [htb] at h
        rw [if_pos (show (!(false || false)) = true from rfl)] at h
        replace h := Except.ok.inj h
        rw [← h]
        rfl

/-- C2 (amended): a `/p/` cache-miss response carries
`Cache-Control: public,max-age=31536000,immutable` when the fallback path
was not used and `public,max-age=600` when a fallback produced the
response; the cache-bypass flags (`ignorecache`, `invalidate`, `refetch`)
do not change the header, and neither
`public,max-age=3600,stale-while-revalidate=86400` nor
`no-cache,must-revalidate` is ever sent on this path. -/
theorem C2_proxy_cache_control :
    (∀ (o : ProxyTailOracles) (l : ProxyLimits) (opts : ProxyOptions)
        (key ct : String) (data : List Nat) (isDef ofc : Bool) (resp : ProxyResp),
      (proxyRespondTail o l opts key ct data isDef ofc).1 = Except.ok resp →
      resp.cacheControl = some "public,max-age=600" ∨
        resp.cacheControl = some "public,max-age=31536000,immutable") ∧
    (∀ (o : ProxyTailOracles) (l : ProxyLimits) (opts : ProxyOptions)
        (key ct : String) (data : List Nat) (ofc : Bool) (resp : ProxyResp),
      (proxyRespondTail o l opts key ct data true ofc).1 = Except.ok resp →
      resp.cacheControl = some "public,max-age=600") ∧
    (∀ (o : ProxyTailOracles) (l : ProxyLimits) (opts : ProxyOptions)
        (key ct : String) (data : List Nat) (ofc : Bool) (resp : ProxyResp)
        (mw mh : Option Nat) (rv : List Nat),
      o.metadataRetry = Except.ok (mw, mh, false) →
      o.sharpToBuffer = some rv →
      (proxyRespondTail o l opts key ct data false ofc).1 = Except.ok resp →
      resp.cacheControl = some "public,max-age=31536000,immutable") ∧
    (∀ (o : ProxyTailOracles) (l : ProxyLimits) (w h : Option Int)
        (md : ScalingMode) (f : OutputFormat) (i1 v1 r1 i2 v2 r2 : Option Int)
        (key ct : String) (data : List Nat) (isDef ofc : Bool),
      proxyRespondTail o l ⟨w, h, md, f, i1, v1, r1⟩ key ct data isDef ofc =
        proxyRespondTail o l ⟨w, h, md, f, i2, v2, r2⟩ key ct data isDef ofc) := by
  refine ⟨?_, ?_, ?_, ?_⟩
  · intro o l opts key ct data isDef ofc resp h
    rcases proxyTail_cc_master o l opts key ct data isDef ofc resp h with hc | ⟨_, hc⟩
    · exact Or.inl hc
    · exact Or.inr hc
  · intro o l opts key ct data ofc resp h
    rcases proxyTail_cc_master o l opts key ct data true ofc resp h with hc | ⟨hfalse, _⟩
    · exact hc
    · exact absurd hfalse (by simp)
  · intro o l opts key ct data ofc resp mw mh rv hmeta htb h
    exact proxyTail_cc_normal o l opts key ct data ofc resp mw mh rv hmeta htb h
  · intro o l w h md f i1 v1 r1 i2 v2 r2 key ct data isDef ofc
    rfl

/-- C2 counterexample: a freshly transcoded miss response with a
cache-bypass flag set (`ignorecache=1`) and no fallback carries
`Cache-Control: public,max-age=31536000,immutable` — not the claimed
`no-cache,must-revalidate`, nor the claimed
`public,max-age=3600,stale-while-revalidate=86400` for the no-bypass
case. -/
theorem C2_proxy_cache_control_counterexample :
    (proxyRespondTail demoTailOracles demoLimits demoOptsBypass
        "Uk_Cover_JPEG_200_100" "image/jpeg" [9] false false).1 =
      Except.ok
        { status := 200
          contentType := some "image/jpeg"
          vary := some "Accept"
          cacheControl := some "public,max-age=31536000,immutable"
          body := some [1] } ∧
    ("public,max-age=31536000,immutable" : String) ≠ "no-cache,must-revalidate" ∧
    ("public,max-age=31536000,immutable" : String) ≠
      "public,max-age=3600,stale-while-revalidate=86400" := by
  refine ⟨?_, ?_, ?_⟩
  · rfl
  · decide
  · decide

/-- C2 (amended) witness: concrete runs exercising each conjunct. -/
theorem C2_proxy_cache_control_witness :
    (some "public,max-age=31536000,immutable" = some "public,max-age=600" ∨
      (some "public,max-age=31536000,immutable" : Option String) =
        some "public,max-age=31536000,immutable") ∧
    ({ status := 200
       contentType := some "image/jpeg"
       vary := some "Accept"
       cacheControl := some "public,max-age=600"
       body := some [1] } : ProxyResp).cacheControl = some "public,max-age=600" ∧
    ({ status := 200
       contentType := some "image/jpeg"
       vary := some "Accept"
       cacheControl := some "public,max-age=31536000,immutable"
       body := some [1] } : ProxyResp).cacheControl =
      some "public,max-age=31536000,immutable" :=
  ⟨(C2_proxy_cache_control.1 demoTailOracles demoLimits demoOptsBypass
      "Uk_Cover_JPEG_200_100" "image/jpeg" [9] false false
      { status := 200
        contentType := some "image/jpeg"
        vary := some "Accept"
        cacheControl := some "public,max-age=31536000,immutable"
        body := some [1] } (by rfl)),
   (C2_proxy_cache_control.2.1 demoTailOracles demoLimits demoOptsBypass
      "Uk_Cover_JPEG_200_100" "image/jpeg" [9] false
      { status := 200
        contentType := some "image/jpeg"
        vary := some "Accept"
        cacheControl := some "public,max-age=600"
        body := some [1] } (by rfl)),
   (C2_proxy_cache_control.2.2.1 demoTailOracles demoLimits demoOptsBypass
      "Uk_Cover_JPEG_200_100" "image/jpeg" [9] false
      { status := 200
        contentType := some "image/jpeg"
        vary := some "Accept"
        cacheControl := some "public,max-age=31536000,immutable"
        body := some [1] } (some 100) (some 80) [1] rfl rfl (by rfl))⟩
